import Mathlib

/-!
Verification development for the `odoo-rapid-quant` stock-propagation core.

The Rust sources are shallowly embedded as follows.

* `rust_decimal::Decimal` is modelled as `ℚ`.  All the arithmetic the
  program performs on `Decimal` (addition, subtraction, multiplication,
  division, numeric comparison, `min`) coincides numerically with the
  corresponding exact operation on `ℚ`, and `Decimal`'s equality and order
  are numeric, so every formula proved here over `ℚ` mirrors the formula
  the code computes over `Decimal`.
  `round_dp_with_strategy(dp, RoundingStrategy::ToZero)` is modelled by
  `roundDp`: truncation toward zero at `dp` fractional digits.
* `ProductId(i32)` is modelled as `Int`.
* `HashMap` values used through `get`/`insert` are modelled as association
  lists with `alookup` (latest insertion shadows), `HashSet` as `List`
  membership.
* `petgraph::graphmap::DiGraphMap<ProductId, Decimal>` is modelled as a
  node list plus an edge list `(source, target, weight)`; `edges_directed
  (p, Incoming)` is `inEdges`, `neighbors_directed (p, Incoming)` is
  `inNeighbors`.
* the `async` database plumbing is outside the embedding: the pure stream
  processing of `quants` in `dialect/v15.rs` is embedded over explicit
  lists of decoded rows.
-/

/-! ### Decimal model: truncation toward zero -/

/-- Integer part of a rational, truncating toward zero (the rounding used
by `RoundingStrategy::ToZero`). -/
def truncQ (x : ℚ) : ℤ :=
  if 0 ≤ x then ⌊x⌋ else ⌈x⌉

/-- Model of `Decimal::round_dp_with_strategy(dp, RoundingStrategy::ToZero)`:
truncate toward zero at `dp` fractional digits. -/
def roundDp (dp : Nat) (x : ℚ) : ℚ :=
  (truncQ (x * 10 ^ dp) : ℚ) / 10 ^ dp

theorem truncQ_intCast (n : ℤ) : truncQ (n : ℚ) = n := by
  unfold truncQ
  split
  · exact Int.floor_intCast n
  · exact Int.ceil_intCast n

theorem roundDp_zero (dp : Nat) : roundDp dp 0 = 0 := by
  unfold roundDp
  rw [zero_mul]
  norm_num [truncQ]

theorem roundDp_idem (dp : Nat) (x : ℚ) :
    roundDp dp (roundDp dp x) = roundDp dp x := by
  unfold roundDp
  have hpow : (10 : ℚ) ^ dp ≠ 0 := by positivity
  rw [div_mul_cancel₀ _ hpow, truncQ_intCast]

/-! ### Data model from `src/product.rs` -/

/-- Model of `ProductId(i32)`. -/
abbrev ProductId := Int

/-- Model of `enum Product`: `Simple(u32)`, `MrpPhantom(Decimal, u32)`,
`MrpNormal(Decimal, u32)`, `Commingled(u32)`.  The `u32` is the decimal
precision `dp`; the `Decimal` is the BoM output quantity. -/
inductive Product where
  | Simple (dp : Nat)
  | MrpPhantom (output_qty : ℚ) (dp : Nat)
  | MrpNormal (output_qty : ℚ) (dp : Nat)
  | Commingled (dp : Nat)
deriving DecidableEq

/-- Model of `Product::is_normal_bom`. -/
def Product.is_normal_bom : Product → Bool
  | .MrpNormal _ _ => true
  | _ => false

/-- Model of `Product::is_simple`. -/
def Product.is_simple : Product → Bool
  | .Simple _ => true
  | _ => false

/-- Model of `struct Availability`. -/
structure Availability where
  quantity : ℚ
  reserved : ℚ
  incoming : ℚ
  outgoing : ℚ
  buildable : ℚ
deriving DecidableEq

/-- Model of `Availability::free_immediately`. -/
def Availability.free_immediately (a : Availability) : ℚ :=
  a.quantity - a.reserved

/-- Model of `Availability::virtual_available`. -/
def Availability.virtual_available (a : Availability) : ℚ :=
  a.quantity - a.outgoing + a.incoming

/-- Model of `enum AvailabilityOutputMode`. -/
inductive AvailabilityOutputMode where
  | ClampToZero
  | Signed
deriving DecidableEq

/-- Model of `AvailabilityOutputMode::from_allow_negative`. -/
def AvailabilityOutputMode.from_allow_negative (allow_negative : Bool) : AvailabilityOutputMode :=
  if allow_negative then .Signed else .ClampToZero

/-- Model of `AvailabilityOutputMode::project`: `ClampToZero` replaces a
negative value by zero, otherwise the value passes through. -/
def AvailabilityOutputMode.project (m : AvailabilityOutputMode) (value : ℚ) : ℚ :=
  match m with
  | .ClampToZero => if value < 0 then 0 else value
  | .Signed => value

/-- Model of `struct OutputAvailability`. -/
structure OutputAvailability where
  quantity : ℚ
  reserved : ℚ
  incoming : ℚ
  outgoing : ℚ
  buildable : ℚ
  free_immediately : ℚ
  virtual_available : ℚ
deriving DecidableEq

/-- Model of `Availability::output`. -/
def Availability.output (a : Availability) (mode : AvailabilityOutputMode) : OutputAvailability :=
  let free_immediately := a.free_immediately
  let virtual_available := a.virtual_available
  { quantity := mode.project a.quantity
    reserved := mode.project a.reserved
    incoming := mode.project a.incoming
    outgoing := mode.project a.outgoing
    buildable := mode.project a.buildable
    free_immediately := mode.project free_immediately
    virtual_available := mode.project virtual_available }

/-- Model of `struct Quant`. -/
structure Quant where
  quantity : ℚ
  reserved : ℚ
  incoming : ℚ
  outgoing : ℚ
deriving DecidableEq

/-- Model of `Quant::EMPTY` (and of the all-zero `Default` impl). -/
def Quant.EMPTY : Quant :=
  { quantity := 0, reserved := 0, incoming := 0, outgoing := 0 }

/-! ### Graph and association-list maps -/

/-- Model of `DiGraphMap<ProductId, Decimal>`: a node list and an edge
list of `(source, target, weight)` triples. -/
structure PGraph where
  nodes : List ProductId
  edges : List (ProductId × ProductId × ℚ)

/-- Model of `graph.edges_directed(p, petgraph::Incoming)`: the in-edges
of `p` as `(source, weight)` pairs. -/
def inEdges (graph : PGraph) (p : ProductId) : List (ProductId × ℚ) :=
  graph.edges.filterMap (fun e => if e.2.1 = p then some (e.1, e.2.2) else none)

/-- Model of `graph.neighbors_directed(p, petgraph::Incoming)`. -/
def inNeighbors (graph : PGraph) (p : ProductId) : List ProductId :=
  graph.edges.filterMap (fun e => if e.2.1 = p then some e.1 else none)

/-- Association-list lookup modelling `HashMap::get` (the latest
insertion shadows older bindings). -/
def alookup {β : Type} : List (ProductId × β) → ProductId → Option β
  | [], _ => none
  | (k, v) :: rest, a => if k = a then some v else alookup rest a

theorem alookup_cons {β : Type} (k : ProductId) (v : β) (rest : List (ProductId × β))
    (a : ProductId) :
    alookup ((k, v) :: rest) a = if k = a then some v else alookup rest a := rfl

theorem alookup_cons_ne {β : Type} {k a : ProductId} (v : β)
    (rest : List (ProductId × β)) (h : k ≠ a) :
    alookup ((k, v) :: rest) a = alookup rest a := by
  simp [alookup_cons, h]

theorem alookup_cons_self {β : Type} (k : ProductId) (v : β)
    (rest : List (ProductId × β)) :
    alookup ((k, v) :: rest) k = some v := by
  simp [alookup_cons]

/-- The availability cache `HashMap<ProductId, Availability>`. -/
abbrev StockMap := List (ProductId × Availability)

/-! ### Stock-propagation engine from `Graph::compute_stock_levels` -/

/-- Model of `Iterator::min` over a list of decimals (`None` on an empty
list; the numeric minimum otherwise). -/
def listMin : List ℚ → Option ℚ
  | [] => none
  | x :: xs =>
    match listMin xs with
    | none => some x
    | some m => some (min x m)

/-- Dependencies of a node paired with their already-computed stock:
iterating the in-edges, an edge whose source has no entry in the stock
cache is dropped (`if let Some(dependency_stock) = stock_cache.get(..)`). -/
def depStocks (cache : StockMap) (deps : List (ProductId × ℚ)) : List (Availability × ℚ) :=
  deps.filterMap (fun cw => (alookup cache cw.1).map (fun s => (s, cw.2)))

/-- Availability computed for one node by the body of the propagation
loop in `Graph::compute_stock_levels`, given the stock cache at the time
the node is processed.  `zero` is `Decimal::ZERO` rounded to the
warehouse-wide precision. -/
def nodeAvail (graph : PGraph) (raw_quants : ProductId → Option Quant) (zero : ℚ)
    (cache : StockMap) (product : ProductId) (info : Product) : Availability :=
  if info.is_simple then
    match raw_quants product with
    | some quant => ⟨quant.quantity, quant.reserved, quant.incoming, quant.outgoing, 0⟩
    | none => ⟨0, 0, 0, 0, 0⟩
  else
    let deps := depStocks cache (inEdges graph product)
    let quantity : List ℚ :=
      if info.is_normal_bom then [] else deps.map (fun sw => sw.1.quantity / sw.2)
    let reserved : List ℚ :=
      if info.is_normal_bom then [] else deps.map (fun sw => sw.1.reserved / sw.2)
    let incoming : List ℚ :=
      if info.is_normal_bom then [] else deps.map (fun sw => sw.1.incoming / sw.2)
    let outgoing : List ℚ :=
      if info.is_normal_bom then [] else deps.map (fun sw => sw.1.outgoing / sw.2)
    let buildable : List ℚ :=
      if info.is_normal_bom then
        deps.map (fun sw => (sw.1.buildable + sw.1.free_immediately) / sw.2)
      else []
    match info with
    | .MrpPhantom d dp =>
      ⟨roundDp dp ((listMin quantity).getD zero * d),
       roundDp dp ((listMin reserved).getD zero * d),
       roundDp dp ((listMin incoming).getD zero * d),
       roundDp dp ((listMin outgoing).getD zero * d),
       zero⟩
    | .MrpNormal d dp =>
      let raw := (raw_quants product).getD Quant.EMPTY
      ⟨raw.quantity, raw.reserved, raw.incoming, raw.outgoing,
       (listMin buildable).getD zero * roundDp dp d⟩
    | .Commingled dp =>
      ⟨roundDp dp (quantity.foldl (· + ·) zero),
       roundDp dp (reserved.foldl (· + ·) zero),
       roundDp dp (incoming.foldl (· + ·) zero),
       roundDp dp (outgoing.foldl (· + ·) zero),
       roundDp dp (buildable.foldl (· + ·) zero)⟩
    | .Simple _ => ⟨0, 0, 0, 0, 0⟩

/-- One iteration of the propagation loop: skip a node already in the
cache, skip (in the model) a node missing from the catalogue (the program
panics there), otherwise insert the computed availability. -/
def stepNode (graph : PGraph) (catalogue : ProductId → Option Product)
    (raw_quants : ProductId → Option Quant) (zero : ℚ)
    (cache : StockMap) (product : ProductId) : StockMap :=
  if (alookup cache product).isSome then cache
  else
    match catalogue product with
    | none => cache
    | some info => (product, nodeAvail graph raw_quants zero cache product info) :: cache

/-- Scope test: `scope` of `None` admits every node, `Some s` admits the
members of `s` (`scoped_products.contains(&product)`). -/
def scopeOk : Option (List ProductId) → ProductId → Prop
  | some s, p => p ∈ s
  | none, _ => True

instance scopeOk.instDecidable : ∀ (scope : Option (List ProductId)) (p : ProductId),
    Decidable (scopeOk scope p)
  | some s, p => inferInstanceAs (Decidable (p ∈ s))
  | none, _ => inferInstanceAs (Decidable True)

/-- Model of `Graph::compute_stock_levels`: walk `sorted_nodes` in order,
skipping nodes outside the scope, updating the stock cache. -/
def computeStockLevels (graph : PGraph) (catalogue : ProductId → Option Product)
    (stock_cache : StockMap) (raw_quants : ProductId → Option Quant)
    (sorted_nodes : List ProductId) (scope : Option (List ProductId))
    (default_dp : Nat) : StockMap :=
  let zero := roundDp default_dp 0
  sorted_nodes.foldl
    (fun cache product =>
      if scopeOk scope product then
        stepNode graph catalogue raw_quants zero cache product
      else cache)
    stock_cache

/-! ### Scope resolver from `Graph::dependency_closure` -/

theorem filter_notMemCons_sublist (p : ProductId) (closure : List ProductId)
    (l : List ProductId) :
    (l.filter (fun q => decide (¬ q ∈ p :: closure))).Sublist
      (l.filter (fun q => decide (¬ q ∈ closure))) := by
  apply List.monotone_filter_right
  intro a ha
  simp only [decide_eq_true_eq, List.mem_cons] at ha ⊢
  exact fun h => ha (Or.inr h)

theorem length_filter_notMemCons_le (p : ProductId) (closure : List ProductId)
    (l : List ProductId) :
    (l.filter (fun q => decide (¬ q ∈ p :: closure))).length ≤
      (l.filter (fun q => decide (¬ q ∈ closure))).length :=
  (filter_notMemCons_sublist p closure l).length_le

theorem length_filter_notMemCons_lt (p : ProductId) (closure : List ProductId)
    (hnc : ¬ p ∈ closure) (l : List ProductId) (hp : p ∈ l) :
    (l.filter (fun q => decide (¬ q ∈ p :: closure))).length <
      (l.filter (fun q => decide (¬ q ∈ closure))).length := by
  refine Nat.lt_of_le_of_ne (length_filter_notMemCons_le p closure l) ?_
  intro heq
  have hlists := (filter_notMemCons_sublist p closure l).eq_of_length heq
  have hpold : p ∈ l.filter (fun q => decide (¬ q ∈ closure)) :=
    List.mem_filter.mpr ⟨hp, by simpa using hnc⟩
  rw [← hlists] at hpold
  have := (List.mem_filter.mp hpold).2
  simp at this

theorem length_filter_notMemCons_eq (p : ProductId) (closure : List ProductId)
    (l : List ProductId) (hp : ¬ p ∈ l) :
    (l.filter (fun q => decide (¬ q ∈ p :: closure))).length =
      (l.filter (fun q => decide (¬ q ∈ closure))).length := by
  have : l.filter (fun q => decide (¬ q ∈ p :: closure)) =
      l.filter (fun q => decide (¬ q ∈ closure)) := by
    apply List.filter_congr
    intro a ha
    have hap : a ≠ p := fun h => hp (h ▸ ha)
    simp [List.mem_cons, hap]
  rw [this]

/-- Worklist loop of `Graph::dependency_closure`: pop a product, add it to
the closure if new, and push its in-neighbors when it is a graph node. -/
def closureLoop (graph : PGraph) (closure : List ProductId) (stack : List ProductId) :
    List ProductId :=
  match stack with
  | [] => closure
  | product :: rest =>
    if product ∈ closure then closureLoop graph closure rest
    else if product ∈ graph.nodes then
      closureLoop graph (product :: closure) (inNeighbors graph product ++ rest)
    else closureLoop graph (product :: closure) rest
termination_by ((graph.nodes.filter (fun q => decide (¬ q ∈ closure))).length, stack.length)
decreasing_by
  · exact Prod.Lex.right _ (Nat.lt_succ_self _)
  · rename_i hmem hnode
    exact Prod.Lex.left _ _ (length_filter_notMemCons_lt _ _ hmem _ hnode)
  · rename_i hmem hnode
    rw [Prod.lex_def]
    right
    exact ⟨length_filter_notMemCons_eq _ _ _ hnode, Nat.lt_succ_self _⟩

/-- Model of `Graph::dependency_closure`. -/
def dependencyClosure (graph : PGraph) (requested_products : List ProductId) :
    List ProductId :=
  closureLoop graph [] requested_products

/-! ### Raw-quant loading from `src/dialect/v15.rs::quants` -/

/-- Decoded row of the on-hand aggregation query (`product_id`, summed
`quantity`, summed `reserved`). -/
structure OnHandRow where
  product_id : ProductId
  quantity : ℚ
  reserved : ℚ

/-- Decoded row of a pending-move aggregation query (`product_id`, summed
`product_qty`). -/
structure MoveRow where
  product_id : ProductId
  product_qty : ℚ

/-- The raw-quants map `HashMap<ProductId, Quant>`. -/
abbrev QuantMap := List (ProductId × Quant)

/-- Test of the early return `if product_ids.is_empty() { return Ok(()) }`
performed before each of the three row streams is consumed. -/
def scopeIsEmptyList : Option (List Int) → Bool
  | some product_ids => product_ids.isEmpty
  | none => false

/-- Model of `Adapter::quants` for Odoo v15, as a pure function of the
decoded rows of its three queries.  The map is cleared first; on-hand rows
insert a fresh `Quant` with `quantity`/`reserved` rounded toward zero to
`decimal_precision`; pending-move rows set `incoming` resp. `outgoing` on
the new-or-existing entry, without rounding. -/
def quantsV15 (raw_quants : QuantMap) (scoped_products : Option (List Int))
    (decimal_precision : Nat) (onhand_rows : List OnHandRow)
    (moves_in_rows moves_out_rows : List MoveRow) : QuantMap :=
  let raw : QuantMap := []
  if scopeIsEmptyList scoped_products then raw
  else
    let raw := onhand_rows.foldl
      (fun m row =>
        (row.product_id,
          { quantity := roundDp decimal_precision row.quantity
            reserved := roundDp decimal_precision row.reserved
            incoming := 0
            outgoing := 0 }) :: m)
      raw
    if scopeIsEmptyList scoped_products then raw
    else
      let raw := moves_in_rows.foldl
        (fun m row =>
          let entry := (alookup m row.product_id).getD Quant.EMPTY
          (row.product_id, { entry with incoming := row.product_qty }) :: m)
        raw
      if scopeIsEmptyList scoped_products then raw
      else
        moves_out_rows.foldl
          (fun m row =>
            let entry := (alookup m row.product_id).getD Quant.EMPTY
            (row.product_id, { entry with outgoing := row.product_qty }) :: m)
          raw

/-! ### Sink statement template from `src/sink.rs` -/

/-- Model of `enum SinkPlaceholder`. -/
inductive SinkPlaceholder where
  | ProductId
  | WarehouseId
  | Quantity
  | Reserved
  | Incoming
  | Outgoing
  | Buildable
  | FreeImmediately
  | VirtualAvailable
deriving DecidableEq

/-- Model of `SinkPlaceholder::parse`. -/
def SinkPlaceholder.parse (name : List Char) : Option SinkPlaceholder :=
  if name = "product_id".data then some .ProductId
  else if name = "warehouse_id".data then some .WarehouseId
  else if name = "quantity".data then some .Quantity
  else if name = "reserved".data then some .Reserved
  else if name = "incoming".data then some .Incoming
  else if name = "outgoing".data then some .Outgoing
  else if name = "buildable".data then some .Buildable
  else if name = "free_immediately".data then some .FreeImmediately
  else if name = "virtual_available".data then some .VirtualAvailable
  else none

/-- Model of `enum SinkStmtTemplateError`. -/
inductive SinkStmtTemplateError where
  | UnclosedPlaceholder
  | UnmatchedClosingBrace
  | EmptyPlaceholder
  | UnknownPlaceholder (name : List Char)
  | NoPlaceholders
deriving DecidableEq

/-- Model of `struct SinkStmtTemplate` (the rewritten SQL text and the
placeholders in match order). -/
structure SinkStmtTemplate where
  sql : List Char
  placeholders : List SinkPlaceholder
deriving DecidableEq

/-- One lexeme of the template input with respect to the placeholder
regex `\x7b([^\x7d]*)\x7d`: either a literal character outside every
match, or the captured content of one match. -/
inductive SinkTok where
  | lit (c : Char)
  | hole (raw : List Char)
deriving DecidableEq

theorem length_dropWhile_le_self (p : Char → Bool) (l : List Char) :
    (l.dropWhile p).length ≤ l.length := by
  induction l with
  | nil => simp
  | cons a l ih =>
    by_cases h : p a
    · rw [List.dropWhile_cons_of_pos h]
      have h2 := ih
      simp only [List.length_cons]
      omega
    · rw [List.dropWhile_cons_of_neg h]

/-- Decomposition of the input into the non-overlapping leftmost matches
of the placeholder regex and the literal text around them, in order.  A
match starts at a `\x7b` that is followed (anywhere later) by a `\x7d`
and captures everything up to the first such `\x7d`. -/
def tokenize : List Char → List SinkTok
  | [] => []
  | c :: rest =>
    if c = '\x7b' ∧ '\x7d' ∈ rest then
      SinkTok.hole (rest.takeWhile (fun d => decide (d ≠ '\x7d'))) ::
        tokenize ((rest.dropWhile (fun d => decide (d ≠ '\x7d'))).drop 1)
    else SinkTok.lit c :: tokenize rest
termination_by l => l.length
decreasing_by
  · have h1 : (rest.dropWhile (fun d => decide (d ≠ '\x7d'))).length ≤ rest.length :=
      length_dropWhile_le_self _ rest
    simp only [List.length_drop, List.length_cons]
    omega
  · simp only [List.length_cons]
    omega

/-- Model of `str::trim` on the captured placeholder content. -/
def trimChars (l : List Char) : List Char :=
  ((l.dropWhile Char.isWhitespace).reverse.dropWhile Char.isWhitespace).reverse

/-- The loop body of `SinkStmtTemplate::parse`: walk the matches in
order, copying literal text, rejecting an empty or unknown (trimmed)
placeholder name, and rewriting the i-th match to the positional bind
`$i` while recording the placeholder. -/
def parseLoop : List SinkTok → List Char → List SinkPlaceholder →
    Except SinkStmtTemplateError (List Char × List SinkPlaceholder)
  | [], sql, placeholders => .ok (sql, placeholders)
  | .lit c :: toks, sql, placeholders => parseLoop toks (sql ++ [c]) placeholders
  | .hole raw :: toks, sql, placeholders =>
    let name := trimChars raw
    if name.isEmpty then .error .EmptyPlaceholder
    else
      match SinkPlaceholder.parse name with
      | none => .error (.UnknownPlaceholder name)
      | some placeholder =>
        parseLoop toks
          (sql ++ '$' :: (toString (placeholders.length + 1)).data)
          (placeholders ++ [placeholder])

/-- Model of `placeholder_regex.replace_all(input, "")`: the literal
characters outside every match, in order. -/
def stripMatches (toks : List SinkTok) : List Char :=
  toks.filterMap (fun t => match t with | .lit c => some c | .hole _ => none)

/-- Model of `SinkStmtTemplate::parse`. -/
def SinkStmtTemplate.parse (input : List Char) :
    Except SinkStmtTemplateError SinkStmtTemplate :=
  let toks := tokenize input
  match parseLoop toks [] [] with
  | .error e => .error e
  | .ok (sql, placeholders) =>
    let non_placeholder := stripMatches toks
    if '\x7d' ∈ non_placeholder then .error .UnmatchedClosingBrace
    else if '\x7b' ∈ non_placeholder then .error .UnclosedPlaceholder
    else if placeholders.isEmpty then .error .NoPlaceholders
    else .ok { sql := sql, placeholders := placeholders }

/-! ### Engine helper lemmas -/

theorem listMin_getD_mul_comm (l : List ℚ) (z d : ℚ) :
    (listMin l).getD z * d = d * (listMin l).getD z := mul_comm _ _

theorem foldl_add_eq_add_sum (l : List ℚ) (z : ℚ) :
    l.foldl (· + ·) z = z + l.sum := by
  induction l generalizing z with
  | nil => simp
  | cons x xs ih =>
    simp only [List.foldl_cons, List.sum_cons, ih]
    ring

/-! ### Claim C7 -/

/-- C7: the `ClampToZero` projection is idempotent: applying it to an
already-projected value yields the same result as applying it once, where
the projection replaces a negative value by zero and passes a non-negative
value through. -/
theorem c7_clamp_idempotent (x : ℚ) :
    AvailabilityOutputMode.ClampToZero.project
        (AvailabilityOutputMode.ClampToZero.project x) =
      AvailabilityOutputMode.ClampToZero.project x := by
  by_cases h : x < 0 <;> simp [AvailabilityOutputMode.project, h]

/-! ### Claim C6 -/

/-- C6: `Signed` mode output equals the raw computed `Availability`
fields unchanged, together with `free_immediately = quantity − reserved`
and `virtual_available = quantity + incoming − outgoing`. -/
theorem c6_signed_transparency (a : Availability) :
    a.output .Signed =
      { quantity := a.quantity
        reserved := a.reserved
        incoming := a.incoming
        outgoing := a.outgoing
        buildable := a.buildable
        free_immediately := a.quantity - a.reserved
        virtual_available := a.quantity + a.incoming - a.outgoing } := by
  have h : a.quantity - a.outgoing + a.incoming = a.quantity + a.incoming - a.outgoing := by
    ring
  simp [Availability.output, AvailabilityOutputMode.project,
    Availability.free_immediately, Availability.virtual_available, h]

/-! ### Claim C8 -/

/-- C8: calling the v15 `quants` operation with scope `Some([])` returns
successfully without emitting any rows: the output raw-quants map is left
empty (the map is cleared and the empty scope list short-circuits before
any row is consumed), and the empty list is not treated as meaning all
products. -/
theorem c8_empty_scope_empty_quants (raw_quants : QuantMap) (decimal_precision : Nat)
    (onhand_rows : List OnHandRow) (moves_in_rows moves_out_rows : List MoveRow) :
    quantsV15 raw_quants (some []) decimal_precision onhand_rows
      moves_in_rows moves_out_rows = [] := rfl

/-! ### Claim C1 -/

unseal Rat.mul Rat.add Rat.inv Rat.sub in
/-- C1 (code bug witness): on the concrete input child `1 = Simple(2)`
with raw quant `(1.0095, 0, 0, 0)` and parent `2 = MrpNormal(output_qty 2,
dp 2)` connected by an edge of weight 1, the engine carries the (absent,
hence all-zero) raw quant of the parent through, but stores `buildable =
min * round_toward_zero(output_qty, dp) = 1.0095 * 2 = 2.019` without any
final rounding, whereas the claimed formula `round_toward_zero(output_qty
* min, dp)` yields `2.01`.  The rounding in `Product::MrpNormal`'s arm is
applied to `output_qty` alone instead of to the product, unlike the
`MrpPhantom` and `Commingled` arms. -/
theorem c1_normal_buildable_code_bug :
    alookup
        (computeStockLevels ⟨[1, 2], [(1, 2, 1)]⟩
          (fun p =>
            if p = 1 then some (.Simple 2)
            else if p = 2 then some (.MrpNormal 2 2) else none)
          []
          (fun p => if p = 1 then some ⟨10095/10000, 0, 0, 0⟩ else none)
          [1, 2] none 2) 2 =
      some ⟨0, 0, 0, 0, 2019/1000⟩ ∧
    roundDp 2 (2 * ((0 + (10095/10000 - 0)) / 1)) = 201/100 ∧
    (2019/1000 : ℚ) ≠ 201/100 := by
  refine ⟨by decide, by decide, by decide⟩

/-! ### Claim C2 -/

unseal Rat.mul Rat.add Rat.inv Rat.sub in
/-- C2 (counterexample): the claim fails on the code in two ways, both
visible on the concrete input `1 = Simple(2)` with raw `(6, 0, 0, 0)`,
`2 = MrpNormal(1, 2)` with raw `(4, 0, 0, 0)` and an edge `1 → 2` of
weight 1, and `3 = Commingled(2)` with an edge `2 → 3` of weight 2.  The
engine computes `availability(2) = (4, 0, 0, 0, 6)` and `availability(3)
= (2, 0, 0, 0, 0)`: the quantity of the dependency is divided by the edge
weight 2 before summing (2 instead of the claimed
`round_toward_zero(4, 2) = 4`), and the buildable of the dependency is
not summed at all (0 instead of the claimed `round_toward_zero(6, 2) =
6`), because the buildable aggregation list is only populated for
`MrpNormal` parents. -/
theorem c2_commingled_counterexample :
    alookup
        (computeStockLevels ⟨[1, 2, 3], [(1, 2, 1), (2, 3, 2)]⟩
          (fun p =>
            if p = 1 then some (.Simple 2)
            else if p = 2 then some (.MrpNormal 1 2)
            else if p = 3 then some (.Commingled 2) else none)
          []
          (fun p =>
            if p = 1 then some ⟨6, 0, 0, 0⟩
            else if p = 2 then some ⟨4, 0, 0, 0⟩ else none)
          [1, 2, 3] none 2) 2 =
      some ⟨4, 0, 0, 0, 6⟩ ∧
    alookup
        (computeStockLevels ⟨[1, 2, 3], [(1, 2, 1), (2, 3, 2)]⟩
          (fun p =>
            if p = 1 then some (.Simple 2)
            else if p = 2 then some (.MrpNormal 1 2)
            else if p = 3 then some (.Commingled 2) else none)
          []
          (fun p =>
            if p = 1 then some ⟨6, 0, 0, 0⟩
            else if p = 2 then some ⟨4, 0, 0, 0⟩ else none)
          [1, 2, 3] none 2) 3 =
      some ⟨2, 0, 0, 0, 0⟩ ∧
    (2 : ℚ) ≠ roundDp 2 4 ∧
    (0 : ℚ) ≠ roundDp 2 6 := by
  refine ⟨by decide, by decide, by decide, by decide⟩

/-! ### Claim C3 -/

unseal Rat.mul Rat.add Rat.inv Rat.sub in
/-- C3 (counterexample): a single incoming pending-move row `(product 1,
qty 1.239)` at precision `dp = 2` is stored in the raw-quants map with
`incoming = 1.239`, not the claimed `round_toward_zero(1.239, 2) = 1.23`:
the v15 `quants` operation rounds only `quantity` and `reserved`; the
`incoming` and `outgoing` fields are stored unrounded. -/
theorem c3_quants_rounding_counterexample :
    alookup (quantsV15 [] none 2 [] [⟨1, 1239/1000⟩] []) 1 =
      some ⟨0, 0, 1239/1000, 0⟩ ∧
    roundDp 2 (1239/1000) ≠ (1239/1000 : ℚ) := by
  refine ⟨by decide, by decide⟩

/-! ### Congruence lemmas for the per-node computation -/

theorem depStocks_congr (cache₁ cache₂ : StockMap) (deps : List (ProductId × ℚ))
    (h : ∀ cw ∈ deps, alookup cache₁ cw.1 = alookup cache₂ cw.1) :
    depStocks cache₁ deps = depStocks cache₂ deps := by
  unfold depStocks
  exact List.filterMap_congr (fun cw hcw => by rw [h cw hcw])

theorem nodeAvail_congr_cache (graph : PGraph) (raw_quants : ProductId → Option Quant)
    (zero : ℚ) (cache₁ cache₂ : StockMap) (product : ProductId) (info : Product)
    (h : ∀ cw ∈ inEdges graph product, alookup cache₁ cw.1 = alookup cache₂ cw.1) :
    nodeAvail graph raw_quants zero cache₁ product info =
      nodeAvail graph raw_quants zero cache₂ product info := by
  by_cases hs : info.is_simple
  · simp [nodeAvail, hs]
  · simp only [nodeAvail, hs, Bool.false_eq_true, if_false,
      depStocks_congr cache₁ cache₂ (inEdges graph product) h]

theorem nodeAvail_congr_deps (g g' : PGraph) (raw_quants : ProductId → Option Quant)
    (zero : ℚ) (cache : StockMap) (product : ProductId) (info : Product)
    (h : depStocks cache (inEdges g product) = depStocks cache (inEdges g' product)) :
    nodeAvail g raw_quants zero cache product info =
      nodeAvail g' raw_quants zero cache product info := by
  by_cases hs : info.is_simple
  · simp [nodeAvail, hs]
  · simp only [nodeAvail, hs, Bool.false_eq_true, if_false, h]

theorem depStocks_inEdges_filter_present (cache : StockMap) (nodes : List ProductId)
    (edges : List (ProductId × ProductId × ℚ)) (p : ProductId) :
    depStocks cache
        (inEdges ⟨nodes, edges.filter (fun e => (alookup cache e.1).isSome)⟩ p) =
      depStocks cache (inEdges ⟨nodes, edges⟩ p) := by
  unfold depStocks inEdges
  rw [List.filterMap_filter, List.filterMap_filterMap, List.filterMap_filterMap]
  apply List.filterMap_congr
  intro e _
  by_cases hpres : ((alookup cache e.1).isSome : Bool)
  · rw [if_pos hpres]
  · rw [if_neg (by simpa using hpres)]
    have hnone : alookup cache e.1 = none := Option.not_isSome_iff_eq_none.mp (by simpa using hpres)
    by_cases ht : e.2.1 = p
    · simp [ht, hnone]
    · simp [ht]

theorem depStocks_inEdges_all_none (cache : StockMap) (g : PGraph) (p : ProductId)
    (h : ∀ cw ∈ inEdges g p, alookup cache cw.1 = none) :
    depStocks cache (inEdges g p) = [] := by
  unfold depStocks
  rw [List.filterMap_eq_nil_iff]
  intro cw hcw
  rw [h cw hcw]
  rfl

theorem inEdges_erased_target (nodes : List ProductId)
    (edges : List (ProductId × ProductId × ℚ)) (p : ProductId) :
    inEdges ⟨nodes, edges.filter (fun e => decide (¬ e.2.1 = p))⟩ p = [] := by
  unfold inEdges
  rw [List.filterMap_filter, List.filterMap_eq_nil_iff]
  intro e _
  by_cases ht : e.2.1 = p
  · simp [ht]
  · simp [ht]

/-! ### Claim C10 -/

/-- C10: during propagation of a non-simple (Phantom, Normal or
Commingled) node, an in-edge whose source has no entry in the
availability cache is silently omitted from the per-field aggregation
lists: the computed availability equals the one computed on the graph
whose edges are restricted to cache-present sources; a node all of whose
dependencies are missing from the cache yields exactly the availability
of a node with no in-edges at all; and no error is raised — the node's
entry is still inserted. -/
theorem c10_missing_dependency_omitted (graph : PGraph)
    (catalogue : ProductId → Option Product) (raw_quants : ProductId → Option Quant)
    (zero : ℚ) (cache : StockMap) (product : ProductId) (info : Product)
    (hns : info.is_simple = false) :
    nodeAvail graph raw_quants zero cache product info =
        nodeAvail ⟨graph.nodes, graph.edges.filter (fun e => (alookup cache e.1).isSome)⟩
          raw_quants zero cache product info ∧
    ((∀ cw ∈ inEdges graph product, alookup cache cw.1 = none) →
      nodeAvail graph raw_quants zero cache product info =
        nodeAvail ⟨graph.nodes, graph.edges.filter (fun e => decide (¬ e.2.1 = product))⟩
          raw_quants zero cache product info) ∧
    (alookup cache product = none → catalogue product = some info →
      alookup (stepNode graph catalogue raw_quants zero cache product) product =
        some (nodeAvail graph raw_quants zero cache product info)) := by
  refine ⟨?_, ?_, ?_⟩
  · apply nodeAvail_congr_deps
    exact (depStocks_inEdges_filter_present cache graph.nodes graph.edges product).symm
  · intro hnone
    apply nodeAvail_congr_deps
    rw [depStocks_inEdges_all_none cache graph product hnone,
      inEdges_erased_target graph.nodes graph.edges product]
    rfl
  · intro hnone hcat
    unfold stepNode
    rw [hnone]
    simp only [Option.isSome_none, Bool.false_eq_true, if_false, hcat]
    exact alookup_cons_self product _ cache

/-! ### Characterization of the propagation fold -/

/-- Membership in the in-edge list, as membership of the edge triple. -/
theorem mem_inEdges (graph : PGraph) (p : ProductId) (cw : ProductId × ℚ) :
    cw ∈ inEdges graph p ↔ (cw.1, p, cw.2) ∈ graph.edges := by
  unfold inEdges
  rw [List.mem_filterMap]
  constructor
  · rintro ⟨e, he, heq⟩
    by_cases ht : e.2.1 = p
    · rw [if_pos ht] at heq
      have hcw : cw = (e.1, e.2.2) := (Option.some_inj.mp heq).symm
      rw [hcw]
      simpa [← ht] using he
    · rw [if_neg ht] at heq
      cases heq
  · intro he
    exact ⟨(cw.1, p, cw.2), he, by simp⟩

/-- Topological-ordering hypothesis on the node list handed to the
engine: the source of every edge appears strictly before its target
(this is what `petgraph::algo::toposort` guarantees for the full node
set of an acyclic graph). -/
def TopoSorted (graph : PGraph) (sorted_nodes : List ProductId) : Prop :=
  ∀ e ∈ graph.edges, sorted_nodes.indexOf e.1 < sorted_nodes.indexOf e.2.1

instance TopoSorted.instDecidable (graph : PGraph) (sorted_nodes : List ProductId) :
    Decidable (TopoSorted graph sorted_nodes) :=
  inferInstanceAs (Decidable (∀ e ∈ graph.edges, _))

theorem indexOf_middle (done rest : List ProductId) (n : ProductId) (h : ¬ n ∈ done) :
    (done ++ n :: rest).indexOf n = done.length := by
  rw [List.indexOf_append_of_not_mem h, List.indexOf_cons_self]
  omega

theorem indexOf_left_lt (done rest : List ProductId) (p : ProductId) (h : p ∈ done) :
    (done ++ rest).indexOf p < done.length := by
  rw [List.indexOf_append_of_mem h]
  exact List.indexOf_lt_length.mpr h

theorem topo_source_in_done (graph : PGraph) (done rest : List ProductId) (n : ProductId)
    (hnd : ¬ n ∈ done) (htopo : TopoSorted graph (done ++ n :: rest)) :
    ∀ e ∈ graph.edges, e.2.1 = n → e.1 ∈ done ∧ e.1 ≠ n := by
  intro e he ht
  have hidx := htopo e he
  rw [ht, indexOf_middle done rest n hnd] at hidx
  constructor
  · by_contra hnotin
    have hsplit : (done ++ n :: rest).indexOf e.1 =
        done.length + (n :: rest).indexOf e.1 :=
      List.indexOf_append_of_not_mem hnotin
    omega
  · intro heq
    rw [heq, indexOf_middle done rest n hnd] at hidx
    omega

theorem topo_no_edge_to_done (graph : PGraph) (done rest : List ProductId) (n : ProductId)
    (hnd : ¬ n ∈ done) (htopo : TopoSorted graph (done ++ n :: rest)) :
    ∀ e ∈ graph.edges, e.1 = n → ¬ e.2.1 ∈ done := by
  intro e he hs hmem
  have hidx := htopo e he
  rw [hs, indexOf_middle done rest n hnd] at hidx
  have := indexOf_left_lt done (n :: rest) e.2.1 hmem
  omega

/-- The scope-filtered loop body of `compute_stock_levels`. -/
def stepScoped (graph : PGraph) (catalogue : ProductId → Option Product)
    (raw_quants : ProductId → Option Quant) (zero : ℚ)
    (scope : Option (List ProductId)) (cache : StockMap) (product : ProductId) : StockMap :=
  if scopeOk scope product then stepNode graph catalogue raw_quants zero cache product
  else cache

theorem computeStockLevels_eq_foldl (graph : PGraph)
    (catalogue : ProductId → Option Product) (stock_cache : StockMap)
    (raw_quants : ProductId → Option Quant) (sorted_nodes : List ProductId)
    (scope : Option (List ProductId)) (default_dp : Nat) :
    computeStockLevels graph catalogue stock_cache raw_quants sorted_nodes scope default_dp =
      sorted_nodes.foldl
        (stepScoped graph catalogue raw_quants (roundDp default_dp 0) scope)
        stock_cache := rfl

theorem stepNode_threeway (graph : PGraph) (catalogue : ProductId → Option Product)
    (raw_quants : ProductId → Option Quant) (zero : ℚ) (cache : StockMap)
    (product : ProductId) :
    ((alookup cache product).isSome ∧
      stepNode graph catalogue raw_quants zero cache product = cache) ∨
    (alookup cache product = none ∧ catalogue product = none ∧
      stepNode graph catalogue raw_quants zero cache product = cache) ∨
    (alookup cache product = none ∧ ∃ info, catalogue product = some info ∧
      stepNode graph catalogue raw_quants zero cache product =
        (product, nodeAvail graph raw_quants zero cache product info) :: cache) := by
  unfold stepNode
  by_cases h : (alookup cache product).isSome
  · exact Or.inl ⟨h, by rw [if_pos h]⟩
  · have hnone : alookup cache product = none := Option.not_isSome_iff_eq_none.mp h
    cases hcat : catalogue product with
    | none => exact Or.inr (Or.inl ⟨hnone, rfl, by rw [if_neg h]⟩)
    | some info => exact Or.inr (Or.inr ⟨hnone, info, rfl, by rw [if_neg h]⟩)

/-- Invariant carried through the propagation fold: every cache entry
belongs to an already-processed, in-scope, catalogued node; every
processed in-scope catalogued node has an entry; and every entry equals
the per-node availability recomputed over the current cache. -/
def CacheInv (graph : PGraph) (catalogue : ProductId → Option Product)
    (raw_quants : ProductId → Option Quant) (zero : ℚ)
    (scope : Option (List ProductId)) (done : List ProductId) (cache : StockMap) : Prop :=
  (∀ p, (alookup cache p).isSome → p ∈ done ∧ scopeOk scope p ∧ (catalogue p).isSome)
  ∧ (∀ p ∈ done, scopeOk scope p → (catalogue p).isSome → (alookup cache p).isSome)
  ∧ (∀ p info a, alookup cache p = some a → catalogue p = some info →
      a = nodeAvail graph raw_quants zero cache p info)

theorem cacheInv_foldl (graph : PGraph) (catalogue : ProductId → Option Product)
    (raw_quants : ProductId → Option Quant) (zero : ℚ)
    (scope : Option (List ProductId)) :
    ∀ (rest done : List ProductId) (cache : StockMap),
      (done ++ rest).Nodup →
      TopoSorted graph (done ++ rest) →
      CacheInv graph catalogue raw_quants zero scope done cache →
      CacheInv graph catalogue raw_quants zero scope (done ++ rest)
        (rest.foldl (stepScoped graph catalogue raw_quants zero scope) cache) := by
  intro rest
  induction rest with
  | nil =>
    intro done cache _ _ hinv
    simpa using hinv
  | cons n rest' ih =>
    intro done cache hnodup htopo hinv
    obtain ⟨hi1, hi2, hi3⟩ := hinv
    have hnd : ¬ n ∈ done := by
      rw [List.nodup_append] at hnodup
      exact fun h => hnodup.2.2 h (List.mem_cons_self n rest')
    have hassoc : done ++ n :: rest' = (done ++ [n]) ++ rest' := by simp
    have hstep : CacheInv graph catalogue raw_quants zero scope (done ++ [n])
        (stepScoped graph catalogue raw_quants zero scope cache n) := by
      unfold stepScoped
      by_cases hsc : scopeOk scope n
      · rw [if_pos hsc]
        have hlook : alookup cache n = none := by
          cases hl : alookup cache n with
          | none => rfl
          | some a => exact absurd (hi1 n (by rw [hl]; rfl)).1 hnd
        rcases stepNode_threeway graph catalogue raw_quants zero cache n with
          ⟨hsome, _⟩ | ⟨_, hcat, heq⟩ | ⟨_, info, hcat, heq⟩
        · rw [hlook] at hsome
          cases hsome
        · rw [heq]
          refine ⟨?_, ?_, hi3⟩
          · intro p hp
            obtain ⟨hpd, hps, hpc⟩ := hi1 p hp
            exact ⟨List.mem_append_left _ hpd, hps, hpc⟩
          · intro p hp hps hpc
            rcases List.mem_append.mp hp with hpd | hpn
            · exact hi2 p hpd hps hpc
            · have : p = n := by simpa using hpn
              subst this
              rw [hcat] at hpc
              cases hpc
        · rw [heq]
          have hsrc := topo_source_in_done graph done rest' n hnd htopo
          have hnoback := topo_no_edge_to_done graph done rest' n hnd htopo
          refine ⟨?_, ?_, ?_⟩
          · intro p hp
            by_cases hpn : n = p
            · subst hpn
              exact ⟨List.mem_append_right _ (by simp), hsc, by rw [hcat]; rfl⟩
            · rw [alookup_cons_ne _ _ hpn] at hp
              obtain ⟨hpd, hps, hpc⟩ := hi1 p hp
              exact ⟨List.mem_append_left _ hpd, hps, hpc⟩
          · intro p hp hps hpc
            rcases List.mem_append.mp hp with hpd | hpn
            · have hpn : n ≠ p := fun h => hnd (h ▸ hpd)
              rw [alookup_cons_ne _ _ hpn]
              exact hi2 p hpd hps hpc
            · have : p = n := by simpa using hpn
              subst this
              rw [alookup_cons_self]
              rfl
          · intro p infp a hpa hcatp
            by_cases hpn : p = n
            · subst hpn
              rw [alookup_cons_self] at hpa
              have ha : a = nodeAvail graph raw_quants zero cache p info :=
                (Option.some_inj.mp hpa).symm
              have hinfo : infp = info := by
                rw [hcat] at hcatp
                exact (Option.some_inj.mp hcatp).symm
              subst hinfo
              rw [ha]
              apply nodeAvail_congr_cache
              intro cw hcw
              have hedge := (mem_inEdges graph p cw).mp hcw
              have hne : cw.1 ≠ p := (hsrc (cw.1, p, cw.2) hedge rfl).2
              rw [alookup_cons_ne _ _ (Ne.symm hne)]
            · rw [alookup_cons_ne _ _ (Ne.symm hpn)] at hpa
              have ha := hi3 p infp a hpa hcatp
              rw [ha]
              apply nodeAvail_congr_cache
              intro cw hcw
              by_cases hcn : cw.1 = n
              · have hedge := (mem_inEdges graph p cw).mp hcw
                rw [hcn] at hedge
                have hpdone : p ∈ done := (hi1 p (by rw [hpa]; rfl)).1
                exact absurd hpdone (hnoback (n, p, cw.2) hedge rfl)
              · rw [alookup_cons_ne _ _ (fun h => hcn h.symm)]
      · rw [if_neg hsc]
        refine ⟨?_, ?_, hi3⟩
        · intro p hp
          obtain ⟨hpd, hps, hpc⟩ := hi1 p hp
          exact ⟨List.mem_append_left _ hpd, hps, hpc⟩
        · intro p hp hps hpc
          rcases List.mem_append.mp hp with hpd | hpn
          · exact hi2 p hpd hps hpc
          · have : p = n := by simpa using hpn
            subst this
            exact absurd hps hsc
    have hres := ih (done ++ [n])
      (stepScoped graph catalogue raw_quants zero scope cache n)
      (by rw [← hassoc]; exact hnodup) (by rw [← hassoc]; exact htopo) hstep
    rw [List.foldl_cons, hassoc]
    exact hres

/-- Characterization of the full run from an empty cache: the final map
satisfies the cache invariant for the whole node list. -/
theorem computeStockLevels_inv (graph : PGraph) (catalogue : ProductId → Option Product)
    (raw_quants : ProductId → Option Quant) (sorted_nodes : List ProductId)
    (scope : Option (List ProductId)) (default_dp : Nat)
    (hnodup : sorted_nodes.Nodup) (htopo : TopoSorted graph sorted_nodes) :
    CacheInv graph catalogue raw_quants (roundDp default_dp 0) scope sorted_nodes
      (computeStockLevels graph catalogue [] raw_quants sorted_nodes scope default_dp) := by
  have hempty : CacheInv graph catalogue raw_quants (roundDp default_dp 0) scope [] [] := by
    refine ⟨?_, ?_, ?_⟩
    · intro p hp
      simp [alookup] at hp
    · intro p hp
      cases hp
    · intro p info a hpa
      simp [alookup] at hpa
  have := cacheInv_foldl graph catalogue raw_quants (roundDp default_dp 0) scope
    sorted_nodes [] [] (by simpa using hnodup) (by simpa using htopo) hempty
  rw [computeStockLevels_eq_foldl]
  simpa using this

/-! ### Per-kind unfoldings and presence lemmas -/

/-- Availability recorded for `c` in a stock map (meaningful when `c` has
an entry; the all-zero default is never exposed by the theorems below,
whose hypotheses guarantee presence). -/
def availabilityOf (m : StockMap) (c : ProductId) : Availability :=
  (alookup m c).getD ⟨0, 0, 0, 0, 0⟩

theorem nodeAvail_phantom (graph : PGraph) (raw_quants : ProductId → Option Quant)
    (zero : ℚ) (cache : StockMap) (p : ProductId) (k : ℚ) (dp : Nat) :
    nodeAvail graph raw_quants zero cache p (.MrpPhantom k dp) =
      ⟨roundDp dp
          ((listMin ((depStocks cache (inEdges graph p)).map
            (fun sw => sw.1.quantity / sw.2))).getD zero * k),
       roundDp dp
          ((listMin ((depStocks cache (inEdges graph p)).map
            (fun sw => sw.1.reserved / sw.2))).getD zero * k),
       roundDp dp
          ((listMin ((depStocks cache (inEdges graph p)).map
            (fun sw => sw.1.incoming / sw.2))).getD zero * k),
       roundDp dp
          ((listMin ((depStocks cache (inEdges graph p)).map
            (fun sw => sw.1.outgoing / sw.2))).getD zero * k),
       zero⟩ := rfl

theorem nodeAvail_commingled (graph : PGraph) (raw_quants : ProductId → Option Quant)
    (zero : ℚ) (cache : StockMap) (p : ProductId) (dp : Nat) :
    nodeAvail graph raw_quants zero cache p (.Commingled dp) =
      ⟨roundDp dp
          (((depStocks cache (inEdges graph p)).map
            (fun sw => sw.1.quantity / sw.2)).foldl (· + ·) zero),
       roundDp dp
          (((depStocks cache (inEdges graph p)).map
            (fun sw => sw.1.reserved / sw.2)).foldl (· + ·) zero),
       roundDp dp
          (((depStocks cache (inEdges graph p)).map
            (fun sw => sw.1.incoming / sw.2)).foldl (· + ·) zero),
       roundDp dp
          (((depStocks cache (inEdges graph p)).map
            (fun sw => sw.1.outgoing / sw.2)).foldl (· + ·) zero),
       roundDp dp (([] : List ℚ).foldl (· + ·) zero)⟩ := rfl

theorem nodeAvail_normal (graph : PGraph) (raw_quants : ProductId → Option Quant)
    (zero : ℚ) (cache : StockMap) (p : ProductId) (k : ℚ) (dp : Nat) :
    nodeAvail graph raw_quants zero cache p (.MrpNormal k dp) =
      ⟨((raw_quants p).getD Quant.EMPTY).quantity,
       ((raw_quants p).getD Quant.EMPTY).reserved,
       ((raw_quants p).getD Quant.EMPTY).incoming,
       ((raw_quants p).getD Quant.EMPTY).outgoing,
       (listMin ((depStocks cache (inEdges graph p)).map
          (fun sw => (sw.1.buildable + sw.1.free_immediately) / sw.2))).getD zero *
         roundDp dp k⟩ := rfl

theorem depStocks_eq_map_of_present (cache : StockMap) (deps : List (ProductId × ℚ))
    (h : ∀ cw ∈ deps, (alookup cache cw.1).isSome) :
    depStocks cache deps = deps.map (fun cw => (availabilityOf cache cw.1, cw.2)) := by
  induction deps with
  | nil => rfl
  | cons cw rest ih =>
    obtain ⟨s, hs⟩ := Option.isSome_iff_exists.mp (h cw (List.mem_cons_self cw rest))
    have ih' := ih (fun cw' hcw' => h cw' (List.mem_cons_of_mem cw hcw'))
    unfold depStocks at ih' ⊢
    rw [List.filterMap_cons, List.map_cons, hs]
    show (s, cw.2) ::
        List.filterMap (fun cw => Option.map (fun s => (s, cw.2)) (alookup cache cw.1)) rest =
      (availabilityOf cache cw.1, cw.2) ::
        List.map (fun cw => (availabilityOf cache cw.1, cw.2)) rest
    rw [ih']
    congr 1
    unfold availabilityOf
    rw [hs]
    rfl

/-- A node with an entry in the final map is in scope. -/
theorem final_entry_scopeOk (graph : PGraph) (catalogue : ProductId → Option Product)
    (raw_quants : ProductId → Option Quant) (sorted_nodes : List ProductId)
    (scope : Option (List ProductId)) (default_dp : Nat)
    (hnodup : sorted_nodes.Nodup) (htopo : TopoSorted graph sorted_nodes)
    (p : ProductId)
    (hp : (alookup (computeStockLevels graph catalogue [] raw_quants sorted_nodes scope
      default_dp) p).isSome) :
    scopeOk scope p :=
  ((computeStockLevels_inv graph catalogue raw_quants sorted_nodes scope default_dp
    hnodup htopo).1 p hp).2.1

/-- In-edge sources of a node present in the final map are present in
the final map themselves, provided edge sources are catalogued and the
scope is closed under following in-edges. -/
theorem children_present (graph : PGraph) (catalogue : ProductId → Option Product)
    (raw_quants : ProductId → Option Quant) (sorted_nodes : List ProductId)
    (scope : Option (List ProductId)) (default_dp : Nat)
    (hnodup : sorted_nodes.Nodup) (htopo : TopoSorted graph sorted_nodes)
    (hcat : ∀ e ∈ graph.edges, (catalogue e.1).isSome)
    (hscope : ∀ e ∈ graph.edges, scopeOk scope e.2.1 → scopeOk scope e.1)
    (p : ProductId)
    (hp : (alookup (computeStockLevels graph catalogue [] raw_quants sorted_nodes scope
      default_dp) p).isSome) :
    ∀ cw ∈ inEdges graph p,
      (alookup (computeStockLevels graph catalogue [] raw_quants sorted_nodes scope
        default_dp) cw.1).isSome := by
  intro cw hcw
  have hedge := (mem_inEdges graph p cw).mp hcw
  have hinv := computeStockLevels_inv graph catalogue raw_quants sorted_nodes scope
    default_dp hnodup htopo
  have hscopeP := (hinv.1 p hp).2.1
  have hscopeC := hscope (cw.1, p, cw.2) hedge hscopeP
  have hcatC := hcat (cw.1, p, cw.2) hedge
  have hidx : sorted_nodes.indexOf cw.1 < sorted_nodes.indexOf p := by
    simpa using htopo (cw.1, p, cw.2) hedge
  have hle : sorted_nodes.indexOf p ≤ sorted_nodes.length :=
    List.indexOf_le_length
  have hmem : cw.1 ∈ sorted_nodes := by
    rw [← List.indexOf_lt_length]
    omega
  exact hinv.2.1 cw.1 hmem hscopeC hcatC

/-! ### Raw-quant irrelevance for phantom nodes -/

theorem nodeAvail_raw_congr (graph : PGraph) (raw₁ raw₂ : ProductId → Option Quant)
    (zero : ℚ) (cache : StockMap) (product : ProductId) (info : Product)
    (h : raw₁ product = raw₂ product) :
    nodeAvail graph raw₁ zero cache product info =
      nodeAvail graph raw₂ zero cache product info := by
  unfold nodeAvail
  rw [h]

theorem foldl_stepScoped_raw_congr (graph : PGraph)
    (catalogue : ProductId → Option Product) (raw₁ raw₂ : ProductId → Option Quant)
    (zero : ℚ) (scope : Option (List ProductId)) (P : ProductId) (k : ℚ) (dp : Nat)
    (hcat : catalogue P = some (.MrpPhantom k dp))
    (hagree : ∀ x, x ≠ P → raw₁ x = raw₂ x) :
    ∀ (ns : List ProductId) (cache : StockMap),
      ns.foldl (stepScoped graph catalogue raw₁ zero scope) cache =
        ns.foldl (stepScoped graph catalogue raw₂ zero scope) cache := by
  intro ns
  induction ns with
  | nil => intro cache; rfl
  | cons m ns ih =>
    intro cache
    rw [List.foldl_cons, List.foldl_cons]
    have hstep : stepScoped graph catalogue raw₁ zero scope cache m =
        stepScoped graph catalogue raw₂ zero scope cache m := by
      unfold stepScoped stepNode
      by_cases hsc : scopeOk scope m
      · rw [if_pos hsc, if_pos hsc]
        by_cases hl : (alookup cache m).isSome
        · rw [if_pos hl, if_pos hl]
        · rw [if_neg hl, if_neg hl]
          by_cases hmP : m = P
          · subst hmP
            rw [hcat]
            show (m, nodeAvail graph raw₁ zero cache m (.MrpPhantom k dp)) :: cache =
              (m, nodeAvail graph raw₂ zero cache m (.MrpPhantom k dp)) :: cache
            rw [nodeAvail_phantom, nodeAvail_phantom]
          · cases hcm : catalogue m with
            | none => rfl
            | some info =>
              show (m, nodeAvail graph raw₁ zero cache m info) :: cache =
                (m, nodeAvail graph raw₂ zero cache m info) :: cache
              rw [nodeAvail_raw_congr graph raw₁ raw₂ zero cache m info (hagree m hmP)]
      · rw [if_neg hsc, if_neg hsc]
    rw [hstep, ih]

theorem computeStockLevels_raw_congr_phantom (graph : PGraph)
    (catalogue : ProductId → Option Product) (raw₁ raw₂ : ProductId → Option Quant)
    (sorted_nodes : List ProductId) (scope : Option (List ProductId)) (default_dp : Nat)
    (P : ProductId) (k : ℚ) (dp : Nat)
    (hcat : catalogue P = some (.MrpPhantom k dp))
    (hagree : ∀ x, x ≠ P → raw₁ x = raw₂ x) :
    computeStockLevels graph catalogue [] raw₁ sorted_nodes scope default_dp =
      computeStockLevels graph catalogue [] raw₂ sorted_nodes scope default_dp := by
  rw [computeStockLevels_eq_foldl, computeStockLevels_eq_foldl]
  exact foldl_stepScoped_raw_congr graph catalogue raw₁ raw₂ (roundDp default_dp 0)
    scope P k dp hcat hagree sorted_nodes []

/-! ### Claim C4 -/

/-- C4: for a Phantom parent computed by the engine (from a topologically
sorted, duplicate-free node list, with catalogued edge sources and a
scope closed under in-edges), each of quantity, reserved, incoming and
outgoing equals `round_toward_zero(output_qty * min over in-edges (c, w)
of availability(c).F / w, dp(P))` with the minimum taken as zero when
there are no in-edges; buildable is zero; and the parent's own raw quants
are ignored (replacing them by anything yields the same entry). -/
theorem c4_phantom_fieldwise_min (graph : PGraph)
    (catalogue : ProductId → Option Product) (raw_quants : ProductId → Option Quant)
    (sorted_nodes : List ProductId) (scope : Option (List ProductId))
    (default_dp : Nat) (M : StockMap)
    (hM : M = computeStockLevels graph catalogue [] raw_quants sorted_nodes scope default_dp)
    (hnodup : sorted_nodes.Nodup) (htopo : TopoSorted graph sorted_nodes)
    (hcat : ∀ e ∈ graph.edges, (catalogue e.1).isSome)
    (hscope : ∀ e ∈ graph.edges, scopeOk scope e.2.1 → scopeOk scope e.1)
    (P : ProductId) (k : ℚ) (dpP : Nat) (a : Availability)
    (hinfo : catalogue P = some (.MrpPhantom k dpP))
    (ha : alookup M P = some a) :
    a.quantity = roundDp dpP (k *
        (listMin ((inEdges graph P).map
          (fun cw => (availabilityOf M cw.1).quantity / cw.2))).getD 0) ∧
    a.reserved = roundDp dpP (k *
        (listMin ((inEdges graph P).map
          (fun cw => (availabilityOf M cw.1).reserved / cw.2))).getD 0) ∧
    a.incoming = roundDp dpP (k *
        (listMin ((inEdges graph P).map
          (fun cw => (availabilityOf M cw.1).incoming / cw.2))).getD 0) ∧
    a.outgoing = roundDp dpP (k *
        (listMin ((inEdges graph P).map
          (fun cw => (availabilityOf M cw.1).outgoing / cw.2))).getD 0) ∧
    a.buildable = 0 ∧
    (∀ q : Option Quant,
      alookup (computeStockLevels graph catalogue []
        (fun x => if x = P then q else raw_quants x) sorted_nodes scope default_dp) P =
        some a) := by
  subst hM
  have hinv := computeStockLevels_inv graph catalogue raw_quants sorted_nodes scope
    default_dp hnodup htopo
  have hpres := children_present graph catalogue raw_quants sorted_nodes scope default_dp
    hnodup htopo hcat hscope P (by rw [ha]; rfl)
  have ha' := hinv.2.2 P (.MrpPhantom k dpP) a ha hinfo
  rw [nodeAvail_phantom,
    depStocks_eq_map_of_present _ _ hpres] at ha'
  simp only [List.map_map, Function.comp_def, roundDp_zero] at ha'
  refine ⟨?_, ?_, ?_, ?_, ?_, ?_⟩
  · rw [ha']
    exact congrArg (roundDp dpP) (mul_comm _ _)
  · rw [ha']
    exact congrArg (roundDp dpP) (mul_comm _ _)
  · rw [ha']
    exact congrArg (roundDp dpP) (mul_comm _ _)
  · rw [ha']
    exact congrArg (roundDp dpP) (mul_comm _ _)
  · rw [ha']
  · intro q
    rw [computeStockLevels_raw_congr_phantom graph catalogue
      (fun x => if x = P then q else raw_quants x) raw_quants sorted_nodes scope
      default_dp P k dpP hinfo (fun x hx => if_neg hx)]
    exact ha

/-! ### Claim C2 (amended) -/

/-- C2 (amended): for a Commingled parent computed by the engine (same
side conditions as C4), each of quantity, reserved, incoming and outgoing
equals `round_toward_zero` of the sum over in-edges `(c, w)` of
`availability(c).F / w` — the per-edge divisor IS applied — and
buildable equals 0: dependency buildables are not aggregated for
Commingled parents (their aggregation list is populated only for Normal
parents). -/
theorem c2_commingled_sum_amended (graph : PGraph)
    (catalogue : ProductId → Option Product) (raw_quants : ProductId → Option Quant)
    (sorted_nodes : List ProductId) (scope : Option (List ProductId))
    (default_dp : Nat) (M : StockMap)
    (hM : M = computeStockLevels graph catalogue [] raw_quants sorted_nodes scope default_dp)
    (hnodup : sorted_nodes.Nodup) (htopo : TopoSorted graph sorted_nodes)
    (hcat : ∀ e ∈ graph.edges, (catalogue e.1).isSome)
    (hscope : ∀ e ∈ graph.edges, scopeOk scope e.2.1 → scopeOk scope e.1)
    (P : ProductId) (dpC : Nat) (a : Availability)
    (hinfo : catalogue P = some (.Commingled dpC))
    (ha : alookup M P = some a) :
    a.quantity = roundDp dpC
        (((inEdges graph P).map
          (fun cw => (availabilityOf M cw.1).quantity / cw.2)).sum) ∧
    a.reserved = roundDp dpC
        (((inEdges graph P).map
          (fun cw => (availabilityOf M cw.1).reserved / cw.2)).sum) ∧
    a.incoming = roundDp dpC
        (((inEdges graph P).map
          (fun cw => (availabilityOf M cw.1).incoming / cw.2)).sum) ∧
    a.outgoing = roundDp dpC
        (((inEdges graph P).map
          (fun cw => (availabilityOf M cw.1).outgoing / cw.2)).sum) ∧
    a.buildable = 0 := by
  subst hM
  have hinv := computeStockLevels_inv graph catalogue raw_quants sorted_nodes scope
    default_dp hnodup htopo
  have hpres := children_present graph catalogue raw_quants sorted_nodes scope default_dp
    hnodup htopo hcat hscope P (by rw [ha]; rfl)
  have ha' := hinv.2.2 P (.Commingled dpC) a ha hinfo
  rw [nodeAvail_commingled,
    depStocks_eq_map_of_present _ _ hpres] at ha'
  simp only [List.map_map, Function.comp_def, roundDp_zero, foldl_add_eq_add_sum,
    zero_add, List.sum_nil, add_zero] at ha'
  refine ⟨?_, ?_, ?_, ?_, ?_⟩
  · rw [ha']
  · rw [ha']
  · rw [ha']
  · rw [ha']
  · rw [ha']

unseal Rat.mul Rat.add Rat.inv Rat.sub in
/-- C4 witness: the phantom scenario of the test suite (two Simple
children feeding a Phantom parent) satisfies every hypothesis of
`c4_phantom_fieldwise_min`, and the theorem applies to the computed
entry `(8, 2, 3, 1, 0)`. -/
theorem c4_phantom_fieldwise_min_witness :
    alookup
        (computeStockLevels ⟨[1, 2, 3], [(1, 3, 1), (2, 3, 1)]⟩
          (fun p =>
            if p = 1 then some (.Simple 2)
            else if p = 2 then some (.Simple 2)
            else if p = 3 then some (.MrpPhantom 1 2) else none)
          []
          (fun p =>
            if p = 1 then some ⟨10, 4, 6, 1⟩
            else if p = 2 then some ⟨8, 2, 3, 5⟩ else none)
          [1, 2, 3] none 2) 3 =
      some ⟨8, 2, 3, 1, 0⟩ ∧
    (⟨8, 2, 3, 1, 0⟩ : Availability).buildable = 0 := by
  refine ⟨by decide, ?_⟩
  exact (c4_phantom_fieldwise_min ⟨[1, 2, 3], [(1, 3, 1), (2, 3, 1)]⟩
    (fun p =>
      if p = 1 then some (.Simple 2)
      else if p = 2 then some (.Simple 2)
      else if p = 3 then some (.MrpPhantom 1 2) else none)
    (fun p =>
      if p = 1 then some ⟨10, 4, 6, 1⟩
      else if p = 2 then some ⟨8, 2, 3, 5⟩ else none)
    [1, 2, 3] none 2 _ rfl (by decide) (by decide) (by decide)
    (by intro e he hs; trivial) 3 1 2 ⟨8, 2, 3, 1, 0⟩ (by decide) (by decide)).2.2.2.2.1

unseal Rat.mul Rat.add Rat.inv Rat.sub in
/-- C2 witness for the amended statement: the commingled scenario of the
test suite satisfies every hypothesis of `c2_commingled_sum_amended`, and
the theorem applies to the computed entry `(3.69, 1.30, 0.12, 0.02, 0)`. -/
theorem c2_commingled_sum_amended_witness :
    alookup
        (computeStockLevels ⟨[1, 2, 3], [(1, 3, 1), (2, 3, 1)]⟩
          (fun p =>
            if p = 1 then some (.Simple 2)
            else if p = 2 then some (.Simple 2)
            else if p = 3 then some (.Commingled 2) else none)
          []
          (fun p =>
            if p = 1 then some ⟨1239/1000, 101/1000, 9/1000, 1/1000⟩
            else if p = 2 then some ⟨2455/1000, 1208/1000, 111/1000, 19/1000⟩ else none)
          [1, 2, 3] none 2) 3 =
      some ⟨369/100, 130/100, 12/100, 2/100, 0⟩ ∧
    (⟨369/100, 130/100, 12/100, 2/100, 0⟩ : Availability).buildable = 0 := by
  refine ⟨by decide, ?_⟩
  exact (c2_commingled_sum_amended ⟨[1, 2, 3], [(1, 3, 1), (2, 3, 1)]⟩
    (fun p =>
      if p = 1 then some (.Simple 2)
      else if p = 2 then some (.Simple 2)
      else if p = 3 then some (.Commingled 2) else none)
    (fun p =>
      if p = 1 then some ⟨1239/1000, 101/1000, 9/1000, 1/1000⟩
      else if p = 2 then some ⟨2455/1000, 1208/1000, 111/1000, 19/1000⟩ else none)
    [1, 2, 3] none 2 _ rfl (by decide) (by decide) (by decide)
    (by intro e he hs; trivial) 3 2 ⟨369/100, 130/100, 12/100, 2/100, 0⟩
    (by decide) (by decide)).2.2.2.2

/-! ### Invariants of the v15 quants folds -/

theorem quants_onhand_fold_inv (dp : Nat) (rows : List OnHandRow) :
    ∀ (m : QuantMap),
      (∀ p q, alookup m p = some q →
        q.quantity = roundDp dp q.quantity ∧ q.reserved = roundDp dp q.reserved ∧
        q.incoming = 0 ∧ q.outgoing = 0) →
      ∀ p q,
        alookup
          (rows.foldl
            (fun m row =>
              (row.product_id,
                { quantity := roundDp dp row.quantity
                  reserved := roundDp dp row.reserved
                  incoming := 0
                  outgoing := 0 }) :: m)
            m) p = some q →
        q.quantity = roundDp dp q.quantity ∧ q.reserved = roundDp dp q.reserved ∧
        q.incoming = 0 ∧ q.outgoing = 0 := by
  induction rows with
  | nil => intro m hm; exact hm
  | cons row rows ih =>
    intro m hm
    rw [List.foldl_cons]
    apply ih
    intro p q hq
    by_cases hp : row.product_id = p
    · subst hp
      rw [alookup_cons_self] at hq
      cases hq
      exact ⟨(roundDp_idem dp _).symm, (roundDp_idem dp _).symm, rfl, rfl⟩
    · rw [alookup_cons_ne _ _ hp] at hq
      exact hm p q hq

theorem quants_moves_in_fold_inv (dp : Nat) (mInFull : List MoveRow)
    (rows : List MoveRow) (hsub : ∀ r ∈ rows, r ∈ mInFull) :
    ∀ (m : QuantMap),
      (∀ p q, alookup m p = some q →
        q.quantity = roundDp dp q.quantity ∧ q.reserved = roundDp dp q.reserved ∧
        (q.incoming = 0 ∨
          ∃ row ∈ mInFull, row.product_id = p ∧ q.incoming = row.product_qty) ∧
        q.outgoing = 0) →
      ∀ p q,
        alookup
          (rows.foldl
            (fun m row =>
              (row.product_id,
                { (alookup m row.product_id).getD Quant.EMPTY with
                    incoming := row.product_qty }) :: m)
            m) p = some q →
        q.quantity = roundDp dp q.quantity ∧ q.reserved = roundDp dp q.reserved ∧
        (q.incoming = 0 ∨
          ∃ row ∈ mInFull, row.product_id = p ∧ q.incoming = row.product_qty) ∧
        q.outgoing = 0 := by
  induction rows with
  | nil => intro m hm; exact hm
  | cons row rows ih =>
    intro m hm
    rw [List.foldl_cons]
    apply ih (fun r hr => hsub r (List.mem_cons_of_mem row hr))
    intro p q hq
    by_cases hp : row.product_id = p
    · subst hp
      rw [alookup_cons_self] at hq
      cases hq
      cases he : alookup m row.product_id with
      | none =>
        simp only [he, Option.getD_none]
        exact ⟨(roundDp_zero dp).symm, (roundDp_zero dp).symm,
          Or.inr ⟨row, hsub row (List.mem_cons_self row rows), rfl, rfl⟩, rfl⟩
      | some entry =>
        obtain ⟨h1, h2, _, h4⟩ := hm row.product_id entry he
        simp only [he, Option.getD_some]
        exact ⟨h1, h2,
          Or.inr ⟨row, hsub row (List.mem_cons_self row rows), rfl, rfl⟩, h4⟩
    · rw [alookup_cons_ne _ _ hp] at hq
      exact hm p q hq

theorem quants_moves_out_fold_inv (dp : Nat) (mInFull mOutFull : List MoveRow)
    (rows : List MoveRow) (hsub : ∀ r ∈ rows, r ∈ mOutFull) :
    ∀ (m : QuantMap),
      (∀ p q, alookup m p = some q →
        q.quantity = roundDp dp q.quantity ∧ q.reserved = roundDp dp q.reserved ∧
        (q.incoming = 0 ∨
          ∃ row ∈ mInFull, row.product_id = p ∧ q.incoming = row.product_qty) ∧
        (q.outgoing = 0 ∨
          ∃ row ∈ mOutFull, row.product_id = p ∧ q.outgoing = row.product_qty)) →
      ∀ p q,
        alookup
          (rows.foldl
            (fun m row =>
              (row.product_id,
                { (alookup m row.product_id).getD Quant.EMPTY with
                    outgoing := row.product_qty }) :: m)
            m) p = some q →
        q.quantity = roundDp dp q.quantity ∧ q.reserved = roundDp dp q.reserved ∧
        (q.incoming = 0 ∨
          ∃ row ∈ mInFull, row.product_id = p ∧ q.incoming = row.product_qty) ∧
        (q.outgoing = 0 ∨
          ∃ row ∈ mOutFull, row.product_id = p ∧ q.outgoing = row.product_qty) := by
  induction rows with
  | nil => intro m hm; exact hm
  | cons row rows ih =>
    intro m hm
    rw [List.foldl_cons]
    apply ih (fun r hr => hsub r (List.mem_cons_of_mem row hr))
    intro p q hq
    by_cases hp : row.product_id = p
    · subst hp
      rw [alookup_cons_self] at hq
      cases hq
      cases he : alookup m row.product_id with
      | none =>
        simp only [he, Option.getD_none]
        exact ⟨(roundDp_zero dp).symm, (roundDp_zero dp).symm, Or.inl rfl,
          Or.inr ⟨row, hsub row (List.mem_cons_self row rows), rfl, rfl⟩⟩
      | some entry =>
        obtain ⟨h1, h2, h3, _⟩ := hm row.product_id entry he
        simp only [he, Option.getD_some]
        exact ⟨h1, h2, h3,
          Or.inr ⟨row, hsub row (List.mem_cons_self row rows), rfl, rfl⟩⟩
    · rw [alookup_cons_ne _ _ hp] at hq
      exact hm p q hq

/-- C3 (amended): every entry of the raw-quants map produced by the v15
`quants` operation has `quantity` and `reserved` rounded toward zero to
`decimal_precision` (each is a fixed point of the rounding), while
`incoming` and `outgoing` are stored exactly as decoded: each is zero or
the literal `product_qty` of a matching pending-move row, with no
rounding applied. -/
theorem c3_quants_rounding_amended (raw_quants : QuantMap)
    (scoped_products : Option (List Int)) (decimal_precision : Nat)
    (onhand_rows : List OnHandRow) (moves_in_rows moves_out_rows : List MoveRow)
    (p : ProductId) (q : Quant)
    (hq : alookup
      (quantsV15 raw_quants scoped_products decimal_precision onhand_rows
        moves_in_rows moves_out_rows) p = some q) :
    q.quantity = roundDp decimal_precision q.quantity ∧
    q.reserved = roundDp decimal_precision q.reserved ∧
    (q.incoming = 0 ∨
      ∃ row ∈ moves_in_rows, row.product_id = p ∧ q.incoming = row.product_qty) ∧
    (q.outgoing = 0 ∨
      ∃ row ∈ moves_out_rows, row.product_id = p ∧ q.outgoing = row.product_qty) := by
  unfold quantsV15 at hq
  by_cases hsc : scopeIsEmptyList scoped_products
  · rw [if_pos hsc] at hq
    cases hq
  · rw [if_neg hsc, if_neg hsc, if_neg hsc] at hq
    have h1 := quants_onhand_fold_inv decimal_precision onhand_rows []
      (by intro p q hpq; cases hpq)
    have h1' : ∀ (p : ProductId) (q : Quant),
        alookup
          (onhand_rows.foldl
            (fun (m : QuantMap) (row : OnHandRow) =>
              (row.product_id,
                { quantity := roundDp decimal_precision row.quantity
                  reserved := roundDp decimal_precision row.reserved
                  incoming := 0
                  outgoing := 0 }) :: m)
            []) p = some q →
        q.quantity = roundDp decimal_precision q.quantity ∧
        q.reserved = roundDp decimal_precision q.reserved ∧
        (q.incoming = 0 ∨
          ∃ row ∈ moves_in_rows, row.product_id = p ∧ q.incoming = row.product_qty) ∧
        q.outgoing = 0 := by
      intro p q hpq
      obtain ⟨a1, a2, a3, a4⟩ := h1 p q hpq
      exact ⟨a1, a2, Or.inl a3, a4⟩
    have h2 := quants_moves_in_fold_inv decimal_precision moves_in_rows moves_in_rows
      (fun r hr => hr) _ h1'
    have h2' : ∀ (p : ProductId) (q : Quant),
        alookup
          (moves_in_rows.foldl
            (fun (m : QuantMap) (row : MoveRow) =>
              (row.product_id,
                { (alookup m row.product_id).getD Quant.EMPTY with
                    incoming := row.product_qty }) :: m)
            (onhand_rows.foldl
              (fun (m : QuantMap) (row : OnHandRow) =>
                (row.product_id,
                  { quantity := roundDp decimal_precision row.quantity
                    reserved := roundDp decimal_precision row.reserved
                    incoming := 0
                    outgoing := 0 }) :: m)
              [])) p = some q →
        q.quantity = roundDp decimal_precision q.quantity ∧
        q.reserved = roundDp decimal_precision q.reserved ∧
        (q.incoming = 0 ∨
          ∃ row ∈ moves_in_rows, row.product_id = p ∧ q.incoming = row.product_qty) ∧
        (q.outgoing = 0 ∨
          ∃ row ∈ moves_out_rows, row.product_id = p ∧ q.outgoing = row.product_qty) := by
      intro p q hpq
      obtain ⟨a1, a2, a3, a4⟩ := h2 p q hpq
      exact ⟨a1, a2, a3, Or.inl a4⟩
    exact quants_moves_out_fold_inv decimal_precision moves_in_rows moves_out_rows
      moves_out_rows (fun r hr => hr) _ h2' p q hq

unseal Rat.mul Rat.add Rat.inv Rat.sub in
/-- C3 witness for the amended statement: one on-hand row `(1, 1.239,
0.101)` and one incoming move row `(1, 5.555)` at precision 2 produce the
entry `(1.23, 0.10, 5.555, 0)`, which satisfies the amended claim. -/
theorem c3_quants_rounding_amended_witness :
    alookup (quantsV15 [] none 2 [⟨1, 1239/1000, 101/1000⟩] [⟨1, 5555/1000⟩] []) 1 =
      some ⟨123/100, 10/100, 5555/1000, 0⟩ ∧
    ((123/100 : ℚ) = roundDp 2 (123/100) ∧
      (10/100 : ℚ) = roundDp 2 (10/100) ∧
      ((5555/1000 : ℚ) = 0 ∨
        ∃ row ∈ [(⟨1, 5555/1000⟩ : MoveRow)],
          row.product_id = 1 ∧ (5555/1000 : ℚ) = row.product_qty) ∧
      ((0 : ℚ) = 0 ∨
        ∃ row ∈ ([] : List MoveRow),
          row.product_id = 1 ∧ (0 : ℚ) = row.product_qty)) :=
  ⟨by decide,
    c3_quants_rounding_amended [] none 2 [⟨1, 1239/1000, 101/1000⟩] [⟨1, 5555/1000⟩] []
      1 ⟨123/100, 10/100, 5555/1000, 0⟩ (by decide)⟩

/-! ### Properties of the dependency closure -/

theorem closureLoop_subset_left (graph : PGraph) :
    ∀ (closure stack : List ProductId), ∀ x ∈ closure, x ∈ closureLoop graph closure stack := by
  intro closure stack
  induction closure, stack using closureLoop.induct graph with
  | case1 closure => intro x hx; rw [closureLoop]; exact hx
  | case2 closure p rest hmem ih =>
    intro x hx
    rw [closureLoop, if_pos hmem]
    exact ih x hx
  | case3 closure p rest hmem hnode ih =>
    intro x hx
    rw [closureLoop, if_neg hmem, if_pos hnode]
    exact ih x (List.mem_cons_of_mem p hx)
  | case4 closure p rest hmem hnode ih =>
    intro x hx
    rw [closureLoop, if_neg hmem, if_neg hnode]
    exact ih x (List.mem_cons_of_mem p hx)

theorem closureLoop_subset_stack (graph : PGraph) :
    ∀ (closure stack : List ProductId), ∀ x ∈ stack, x ∈ closureLoop graph closure stack := by
  intro closure stack
  induction closure, stack using closureLoop.induct graph with
  | case1 closure => intro x hx; cases hx
  | case2 closure p rest hmem ih =>
    intro x hx
    rw [closureLoop, if_pos hmem]
    rcases List.mem_cons.mp hx with h | h
    · subst h
      exact closureLoop_subset_left graph closure rest x hmem
    · exact ih x h
  | case3 closure p rest hmem hnode ih =>
    intro x hx
    rw [closureLoop, if_neg hmem, if_pos hnode]
    rcases List.mem_cons.mp hx with h | h
    · subst h
      exact closureLoop_subset_left graph (x :: closure) _ x (List.mem_cons_self x closure)
    · exact ih x (List.mem_append_right _ h)
  | case4 closure p rest hmem hnode ih =>
    intro x hx
    rw [closureLoop, if_neg hmem, if_neg hnode]
    rcases List.mem_cons.mp hx with h | h
    · subst h
      exact closureLoop_subset_left graph (x :: closure) _ x (List.mem_cons_self x closure)
    · exact ih x h

theorem closureLoop_closed (graph : PGraph) :
    ∀ (closure stack : List ProductId),
      (∀ p ∈ closure, p ∈ graph.nodes →
        ∀ c ∈ inNeighbors graph p, c ∈ closure ∨ c ∈ stack) →
      ∀ p ∈ closureLoop graph closure stack, p ∈ graph.nodes →
        ∀ c ∈ inNeighbors graph p, c ∈ closureLoop graph closure stack := by
  intro closure stack
  induction closure, stack using closureLoop.induct graph with
  | case1 closure =>
    intro hinv p hp hnode c hc
    rw [closureLoop] at hp ⊢
    rcases hinv p hp hnode c hc with h | h
    · exact h
    · cases h
  | case2 closure p rest hmem ih =>
    intro hinv
    rw [closureLoop, if_pos hmem]
    apply ih
    intro q hq hqnode c hc
    rcases hinv q hq hqnode c hc with h | h
    · exact Or.inl h
    · rcases List.mem_cons.mp h with h' | h'
      · exact Or.inl (h' ▸ hmem)
      · exact Or.inr h'
  | case3 closure p rest hmem hnode ih =>
    intro hinv
    rw [closureLoop, if_neg hmem, if_pos hnode]
    apply ih
    intro q hq hqnode c hc
    rcases List.mem_cons.mp hq with hqp | hq'
    · subst hqp
      exact Or.inr (List.mem_append_left _ hc)
    · rcases hinv q hq' hqnode c hc with h | h
      · exact Or.inl (List.mem_cons_of_mem p h)
      · rcases List.mem_cons.mp h with h' | h'
        · exact Or.inl (h' ▸ List.mem_cons_self p closure)
        · exact Or.inr (List.mem_append_right _ h')
  | case4 closure p rest hmem hnode ih =>
    intro hinv
    rw [closureLoop, if_neg hmem, if_neg hnode]
    apply ih
    intro q hq hqnode c hc
    rcases List.mem_cons.mp hq with hqp | hq'
    · subst hqp
      exact absurd hqnode hnode
    · rcases hinv q hq' hqnode c hc with h | h
      · exact Or.inl (List.mem_cons_of_mem p h)
      · rcases List.mem_cons.mp h with h' | h'
        · exact Or.inl (h' ▸ List.mem_cons_self p closure)
        · exact Or.inr h'

theorem requested_subset_dependencyClosure (graph : PGraph)
    (requested_products : List ProductId) :
    ∀ x ∈ requested_products, x ∈ dependencyClosure graph requested_products :=
  closureLoop_subset_stack graph [] requested_products

theorem mem_inNeighbors_of_edge (graph : PGraph) (e : ProductId × ProductId × ℚ)
    (he : e ∈ graph.edges) : e.1 ∈ inNeighbors graph e.2.1 := by
  unfold inNeighbors
  rw [List.mem_filterMap]
  exact ⟨e, he, by rw [if_pos rfl]⟩

theorem dependencyClosure_closed (graph : PGraph) (requested_products : List ProductId)
    (hWF : ∀ e ∈ graph.edges, e.1 ∈ graph.nodes ∧ e.2.1 ∈ graph.nodes) :
    ∀ e ∈ graph.edges, e.2.1 ∈ dependencyClosure graph requested_products →
      e.1 ∈ dependencyClosure graph requested_products := by
  intro e he htgt
  exact closureLoop_closed graph [] requested_products
    (by intro p hp; cases hp) e.2.1 htgt (hWF e he).2 e.1
    (mem_inNeighbors_of_edge graph e he)

/-! ### Scoped run versus unscoped run -/

theorem scoped_unscoped_fold (graph : PGraph) (catalogue : ProductId → Option Product)
    (raw_quants : ProductId → Option Quant) (zero : ℚ) (S : List ProductId)
    (hclosed : ∀ e ∈ graph.edges, e.2.1 ∈ S → e.1 ∈ S) :
    ∀ (ns : List ProductId) (cs cu : StockMap),
      (∀ p, (alookup cs p).isSome → p ∈ S) →
      (∀ p ∈ S, alookup cs p = alookup cu p) →
      (∀ p, (alookup (ns.foldl (stepScoped graph catalogue raw_quants zero (some S)) cs)
          p).isSome → p ∈ S) ∧
      (∀ p ∈ S,
        alookup (ns.foldl (stepScoped graph catalogue raw_quants zero (some S)) cs) p =
          alookup (ns.foldl (stepScoped graph catalogue raw_quants zero none) cu) p) := by
  intro ns
  induction ns with
  | nil => intro cs cu h1 h2; exact ⟨h1, h2⟩
  | cons n ns ih =>
    intro cs cu h1 h2
    rw [List.foldl_cons, List.foldl_cons]
    by_cases hn : n ∈ S
    · have hss : stepScoped graph catalogue raw_quants zero (some S) cs n =
          stepNode graph catalogue raw_quants zero cs n := by
        unfold stepScoped
        rw [if_pos (show scopeOk (some S) n from hn)]
      have hsu : stepScoped graph catalogue raw_quants zero none cu n =
          stepNode graph catalogue raw_quants zero cu n := by
        unfold stepScoped
        rw [if_pos (show scopeOk none n by trivial)]
      rw [hss, hsu]
      by_cases hl : (alookup cu n).isSome
      · have hls : (alookup cs n).isSome := by rw [h2 n hn]; exact hl
        have e1 : stepNode graph catalogue raw_quants zero cs n = cs := by
          unfold stepNode
          rw [if_pos hls]
        have e2 : stepNode graph catalogue raw_quants zero cu n = cu := by
          unfold stepNode
          rw [if_pos hl]
        rw [e1, e2]
        exact ih cs cu h1 h2
      · have hls : ¬ (alookup cs n).isSome = true := by rw [h2 n hn]; exact hl
        cases hcat : catalogue n with
        | none =>
          have e1 : stepNode graph catalogue raw_quants zero cs n = cs := by
            unfold stepNode
            rw [if_neg hls, hcat]
          have e2 : stepNode graph catalogue raw_quants zero cu n = cu := by
            unfold stepNode
            rw [if_neg hl, hcat]
          rw [e1, e2]
          exact ih cs cu h1 h2
        | some info =>
          have e1 : stepNode graph catalogue raw_quants zero cs n =
              (n, nodeAvail graph raw_quants zero cs n info) :: cs := by
            unfold stepNode
            rw [if_neg hls, hcat]
          have e2 : stepNode graph catalogue raw_quants zero cu n =
              (n, nodeAvail graph raw_quants zero cu n info) :: cu := by
            unfold stepNode
            rw [if_neg hl, hcat]
          have hdeps : ∀ cw ∈ inEdges graph n, alookup cs cw.1 = alookup cu cw.1 := by
            intro cw hcw
            have hedge := (mem_inEdges graph n cw).mp hcw
            exact h2 cw.1 (hclosed (cw.1, n, cw.2) hedge hn)
          have hav := nodeAvail_congr_cache graph raw_quants zero cs cu n info hdeps
          rw [e1, e2, hav]
          apply ih
          · intro p hp
            by_cases hpn : n = p
            · exact hpn ▸ hn
            · rw [alookup_cons_ne _ _ hpn] at hp
              exact h1 p hp
          · intro p hp
            by_cases hpn : n = p
            · subst hpn
              rw [alookup_cons_self, alookup_cons_self]
            · rw [alookup_cons_ne _ _ hpn, alookup_cons_ne _ _ hpn]
              exact h2 p hp
    · have hs : stepScoped graph catalogue raw_quants zero (some S) cs n = cs := by
        unfold stepScoped
        rw [if_neg (show ¬ scopeOk (some S) n from hn)]
      rw [hs]
      have hu : stepScoped graph catalogue raw_quants zero none cu n = cu ∨
          ∃ av, stepScoped graph catalogue raw_quants zero none cu n = (n, av) :: cu := by
        unfold stepScoped
        rw [if_pos (show scopeOk none n by trivial)]
        rcases stepNode_threeway graph catalogue raw_quants zero cu n with
          ⟨_, heq⟩ | ⟨_, _, heq⟩ | ⟨_, info, _, heq⟩
        · exact Or.inl heq
        · exact Or.inl heq
        · exact Or.inr ⟨_, heq⟩
      rcases hu with heq | ⟨av, heq⟩
      · rw [heq]
        exact ih cs cu h1 h2
      · rw [heq]
        apply ih
        · exact h1
        · intro p hp
          have hpn : n ≠ p := fun h => hn (h ▸ hp)
          rw [alookup_cons_ne _ _ hpn]
          exact h2 p hp

/-! ### Claim C5 -/

/-- C5: with a non-empty request set, the availability map produced by
propagation contains only products in the ancestor-closure of the
requests (a closure that also contains requested products absent from
the graph), and on every product of that closure the scoped run computes
exactly what the unscoped run computes from the same graph, catalogue
and raw quants. -/
theorem c5_scope_restriction (graph : PGraph) (catalogue : ProductId → Option Product)
    (raw_quants : ProductId → Option Quant) (sorted_nodes : List ProductId)
    (default_dp : Nat) (requested_products : List ProductId)
    (hWF : ∀ e ∈ graph.edges, e.1 ∈ graph.nodes ∧ e.2.1 ∈ graph.nodes)
    (hreq : requested_products ≠ []) :
    (∀ p ∈ requested_products, p ∈ dependencyClosure graph requested_products) ∧
    (∀ p,
      (alookup (computeStockLevels graph catalogue [] raw_quants sorted_nodes
        (some (dependencyClosure graph requested_products)) default_dp) p).isSome →
      p ∈ dependencyClosure graph requested_products) ∧
    (∀ p ∈ dependencyClosure graph requested_products,
      alookup (computeStockLevels graph catalogue [] raw_quants sorted_nodes
        (some (dependencyClosure graph requested_products)) default_dp) p =
      alookup (computeStockLevels graph catalogue [] raw_quants sorted_nodes
        none default_dp) p) := by
  have hclosed := dependencyClosure_closed graph requested_products hWF
  have hmain := scoped_unscoped_fold graph catalogue raw_quants (roundDp default_dp 0)
    (dependencyClosure graph requested_products) hclosed sorted_nodes [] []
    (by intro p hp; simp [alookup] at hp) (by intro p _; rfl)
  refine ⟨requested_subset_dependencyClosure graph requested_products, ?_, ?_⟩
  · intro p hp
    rw [computeStockLevels_eq_foldl] at hp
    exact hmain.1 p hp
  · intro p hp
    rw [computeStockLevels_eq_foldl, computeStockLevels_eq_foldl]
    exact hmain.2 p hp

/-- C5 witness: a two-node chain `1 → 2` plus an unrelated node `3`,
requesting `[2]`, satisfies the hypotheses of `c5_scope_restriction`. -/
theorem c5_scope_restriction_witness :
    (∀ e ∈ ([(1, 2, 1)] : List (ProductId × ProductId × ℚ)),
      e.1 ∈ ([1, 2, 3] : List ProductId) ∧ e.2.1 ∈ ([1, 2, 3] : List ProductId)) ∧
    (∀ p ∈ ([2] : List ProductId),
      p ∈ dependencyClosure ⟨[1, 2, 3], [(1, 2, 1)]⟩ [2]) :=
  ⟨by decide,
    (c5_scope_restriction ⟨[1, 2, 3], [(1, 2, 1)]⟩
      (fun p => if p = 1 then some (.Simple 2) else if p = 2 then some (.Simple 2)
        else if p = 3 then some (.Simple 2) else none)
      (fun _ => none) [1, 2, 3] 2 [2] (by decide) (by decide)).1⟩

/-! ### Declarative views of the template decomposition -/

/-- Captured contents of the placeholder matches, in order. -/
def holesOf (toks : List SinkTok) : List (List Char) :=
  toks.filterMap (fun t => match t with | .hole r => some r | .lit _ => none)

theorem holesOf_nil : holesOf [] = [] := rfl

theorem holesOf_cons_lit (c : Char) (toks : List SinkTok) :
    holesOf (.lit c :: toks) = holesOf toks := rfl

theorem holesOf_cons_hole (r : List Char) (toks : List SinkTok) :
    holesOf (.hole r :: toks) = r :: holesOf toks := rfl

/-- Declarative form of the rewritten SQL text: literal characters are
kept and the j-th match (counting from `i`) becomes the positional bind
written `$j`. -/
def numberHoles (i : Nat) : List SinkTok → List Char
  | [] => []
  | .lit c :: toks => c :: numberHoles i toks
  | .hole _ :: toks => '$' :: (toString i).data ++ numberHoles (i + 1) toks

/-- Tokens that parse identically: equal literals, and hole contents
equal after trimming. -/
def tokSim : SinkTok → SinkTok → Prop
  | .lit c, .lit c' => c = c'
  | .hole r, .hole r' => trimChars r = trimChars r'
  | .lit _, .hole _ => False
  | .hole _, .lit _ => False

theorem holes_filterMap (toks : List SinkTok) :
    (holesOf toks).filterMap (fun r => SinkPlaceholder.parse (trimChars r)) =
      toks.filterMap (fun t =>
        match t with
        | .hole r => SinkPlaceholder.parse (trimChars r)
        | .lit _ => none) := by
  unfold holesOf
  rw [List.filterMap_filterMap]
  apply List.filterMap_congr
  intro t _
  cases t <;> rfl

theorem sinkPlaceholder_parse_nil : SinkPlaceholder.parse [] = none := by decide

theorem parse_trim_isSome_not_empty (r : List Char)
    (h : (SinkPlaceholder.parse (trimChars r)).isSome) :
    (trimChars r).isEmpty = false := by
  cases htr : trimChars r with
  | nil =>
    rw [htr, sinkPlaceholder_parse_nil] at h
    cases h
  | cons c l => rfl

theorem parseLoop_ok (toks : List SinkTok) :
    ∀ (sql : List Char) (phs : List SinkPlaceholder),
      (∀ r ∈ holesOf toks, (SinkPlaceholder.parse (trimChars r)).isSome) →
      parseLoop toks sql phs =
        .ok (sql ++ numberHoles (phs.length + 1) toks,
          phs ++ toks.filterMap (fun t =>
            match t with
            | .hole r => SinkPlaceholder.parse (trimChars r)
            | .lit _ => none)) := by
  induction toks with
  | nil =>
    intro sql phs _
    simp [parseLoop, numberHoles]
  | cons t toks ih =>
    intro sql phs hval
    cases t with
    | lit c =>
      have hstep : parseLoop (.lit c :: toks) sql phs = parseLoop toks (sql ++ [c]) phs := rfl
      rw [hstep, ih (sql ++ [c]) phs (fun r hr => hval r hr)]
      simp [numberHoles, List.append_assoc]
    | hole r =>
      have hval0 : (SinkPlaceholder.parse (trimChars r)).isSome :=
        hval r (by rw [holesOf_cons_hole]; exact List.mem_cons_self r _)
      obtain ⟨pl, hpl⟩ := Option.isSome_iff_exists.mp hval0
      have hne := parse_trim_isSome_not_empty r hval0
      have hstep : parseLoop (.hole r :: toks) sql phs =
          parseLoop toks (sql ++ '$' :: (toString (phs.length + 1)).data)
            (phs ++ [pl]) := by
        simp [parseLoop, hne, hpl]
      rw [hstep,
        ih (sql ++ '$' :: (toString (phs.length + 1)).data) (phs ++ [pl])
          (fun r' hr' => hval r' (by rw [holesOf_cons_hole]; exact List.mem_cons_of_mem r hr'))]
      simp [numberHoles, hpl, List.append_assoc, List.length_append]

theorem parseLoop_error_first (toks : List SinkTok) :
    ∀ (sql : List Char) (phs : List SinkPlaceholder) (pre : List (List Char))
      (r : List Char) (post : List (List Char)),
      holesOf toks = pre ++ r :: post →
      (∀ r' ∈ pre, (SinkPlaceholder.parse (trimChars r')).isSome) →
      (SinkPlaceholder.parse (trimChars r)).isSome = false →
      parseLoop toks sql phs =
        .error (if (trimChars r).isEmpty then .EmptyPlaceholder
          else .UnknownPlaceholder (trimChars r)) := by
  induction toks with
  | nil =>
    intro sql phs pre r post hdec
    exfalso
    rw [holesOf_nil] at hdec
    cases pre with
    | nil => cases hdec
    | cons p0 pre' => cases hdec
  | cons t toks ih =>
    cases t with
    | lit c =>
      intro sql phs pre r post hdec hpre hbad
      have hstep : parseLoop (.lit c :: toks) sql phs = parseLoop toks (sql ++ [c]) phs := rfl
      rw [hstep]
      exact ih _ _ pre r post hdec hpre hbad
    | hole r0 =>
      intro sql phs pre r post hdec hpre hbad
      rw [holesOf_cons_hole] at hdec
      cases pre with
      | nil =>
        have hr : r0 = r := (List.cons.injEq _ _ _ _).mp hdec |>.1
        subst hr
        by_cases hemp : (trimChars r0).isEmpty
        · simp [parseLoop, hemp]
        · have hnone : SinkPlaceholder.parse (trimChars r0) = none :=
            Option.not_isSome_iff_eq_none.mp (by rw [hbad]; exact Bool.false_ne_true)
          simp [parseLoop, hemp, hnone]
      | cons p0 pre' =>
        obtain ⟨hr0, hrest⟩ := (List.cons.injEq _ _ _ _).mp hdec
        subst hr0
        have hval0 : (SinkPlaceholder.parse (trimChars r0)).isSome :=
          hpre r0 (List.mem_cons_self r0 pre')
        obtain ⟨pl, hpl⟩ := Option.isSome_iff_exists.mp hval0
        have hne := parse_trim_isSome_not_empty r0 hval0
        have hstep : parseLoop (.hole r0 :: toks) sql phs =
            parseLoop toks (sql ++ '$' :: (toString (phs.length + 1)).data)
              (phs ++ [pl]) := by
          simp [parseLoop, hne, hpl]
        rw [hstep]
        exact ih _ _ pre' r post hrest
          (fun r' hr' => hpre r' (List.mem_cons_of_mem _ hr')) hbad

theorem parseLoop_sim {toks₁ toks₂ : List SinkTok}
    (hsim : List.Forall₂ tokSim toks₁ toks₂) :
    ∀ (sql : List Char) (phs : List SinkPlaceholder),
      parseLoop toks₁ sql phs = parseLoop toks₂ sql phs := by
  induction hsim with
  | nil => intro sql phs; rfl
  | cons hab hrest ih =>
    rename_i a b l₁ l₂
    intro sql phs
    cases a with
    | lit c =>
      cases b with
      | lit c' =>
        have hc : c = c' := hab
        subst hc
        have h1 : parseLoop (.lit c :: l₁) sql phs = parseLoop l₁ (sql ++ [c]) phs := rfl
        have h2 : parseLoop (.lit c :: l₂) sql phs = parseLoop l₂ (sql ++ [c]) phs := rfl
        rw [h1, h2]
        exact ih (sql ++ [c]) phs
      | hole r' => cases hab
    | hole r =>
      cases b with
      | lit c' => cases hab
      | hole r' =>
        have htrim : trimChars r = trimChars r' := hab
        by_cases hemp : (trimChars r).isEmpty
        · have h1 : parseLoop (.hole r :: l₁) sql phs = .error .EmptyPlaceholder := by
            simp [parseLoop, hemp]
          have h2 : parseLoop (.hole r' :: l₂) sql phs = .error .EmptyPlaceholder := by
            simp [parseLoop, ← htrim, hemp]
          rw [h1, h2]
        · cases hp : SinkPlaceholder.parse (trimChars r) with
          | none =>
            have h1 : parseLoop (.hole r :: l₁) sql phs =
                .error (.UnknownPlaceholder (trimChars r)) := by
              simp [parseLoop, hemp, hp]
            have h2 : parseLoop (.hole r' :: l₂) sql phs =
                .error (.UnknownPlaceholder (trimChars r)) := by
              simp [parseLoop, ← htrim, hemp, hp]
            rw [h1, h2]
          | some pl =>
            have h1 : parseLoop (.hole r :: l₁) sql phs =
                parseLoop l₁ (sql ++ '$' :: (toString (phs.length + 1)).data)
                  (phs ++ [pl]) := by
              simp [parseLoop, hemp, hp]
            have h2 : parseLoop (.hole r' :: l₂) sql phs =
                parseLoop l₂ (sql ++ '$' :: (toString (phs.length + 1)).data)
                  (phs ++ [pl]) := by
              simp [parseLoop, ← htrim, hemp, hp]
            rw [h1, h2]
            exact ih _ _

theorem stripMatches_sim {toks₁ toks₂ : List SinkTok}
    (hsim : List.Forall₂ tokSim toks₁ toks₂) :
    stripMatches toks₁ = stripMatches toks₂ := by
  induction hsim with
  | nil => rfl
  | cons hab hrest ih =>
    rename_i a b l₁ l₂
    cases a with
    | lit c =>
      cases b with
      | lit c' =>
        have hc : c = c' := hab
        subst hc
        show c :: stripMatches l₁ = c :: stripMatches l₂
        rw [ih]
      | hole r' => cases hab
    | hole r =>
      cases b with
      | lit c' => cases hab
      | hole r' =>
        show stripMatches l₁ = stripMatches l₂
        exact ih

theorem sinkParse_eq (input : List Char) :
    SinkStmtTemplate.parse input =
      (match parseLoop (tokenize input) [] [] with
        | .error e => .error e
        | .ok (sql, placeholders) =>
          if '\x7d' ∈ stripMatches (tokenize input) then
            .error .UnmatchedClosingBrace
          else if '\x7b' ∈ stripMatches (tokenize input) then
            .error .UnclosedPlaceholder
          else if placeholders.isEmpty then .error .NoPlaceholders
          else .ok { sql := sql, placeholders := placeholders }) := rfl

theorem sinkParse_sim (input₁ input₂ : List Char)
    (hsim : List.Forall₂ tokSim (tokenize input₁) (tokenize input₂)) :
    SinkStmtTemplate.parse input₁ = SinkStmtTemplate.parse input₂ := by
  rw [sinkParse_eq, sinkParse_eq, parseLoop_sim hsim [] [], stripMatches_sim hsim]

/-! ### Claim C9 -/

/-- C9: `SinkStmtTemplate::parse` rewrites the i-th placeholder match to
the positional bind written `$i` while recording the placeholders in
match order; trims whitespace inside braces, so inputs whose matches
agree up to trimming parse identically; rejects — with distinct error
kinds — an empty placeholder, an unknown placeholder name (the first
offending match raising the error), a closing or an opening brace left
outside every match, and an input without any placeholder; and succeeds
otherwise. -/
theorem c9_sink_template_parse (input : List Char) :
    ((∀ r ∈ holesOf (tokenize input), (SinkPlaceholder.parse (trimChars r)).isSome) →
      ¬ '\x7d' ∈ stripMatches (tokenize input) →
      ¬ '\x7b' ∈ stripMatches (tokenize input) →
      holesOf (tokenize input) ≠ [] →
      SinkStmtTemplate.parse input =
        .ok { sql := numberHoles 1 (tokenize input)
              placeholders := (holesOf (tokenize input)).filterMap
                (fun r => SinkPlaceholder.parse (trimChars r)) }) ∧
    (∀ pre r post, holesOf (tokenize input) = pre ++ r :: post →
      (∀ r' ∈ pre, (SinkPlaceholder.parse (trimChars r')).isSome) →
      trimChars r = [] →
      SinkStmtTemplate.parse input = .error .EmptyPlaceholder) ∧
    (∀ pre r post, holesOf (tokenize input) = pre ++ r :: post →
      (∀ r' ∈ pre, (SinkPlaceholder.parse (trimChars r')).isSome) →
      trimChars r ≠ [] →
      SinkPlaceholder.parse (trimChars r) = none →
      SinkStmtTemplate.parse input = .error (.UnknownPlaceholder (trimChars r))) ∧
    ((∀ r ∈ holesOf (tokenize input), (SinkPlaceholder.parse (trimChars r)).isSome) →
      '\x7d' ∈ stripMatches (tokenize input) →
      SinkStmtTemplate.parse input = .error .UnmatchedClosingBrace) ∧
    ((∀ r ∈ holesOf (tokenize input), (SinkPlaceholder.parse (trimChars r)).isSome) →
      ¬ '\x7d' ∈ stripMatches (tokenize input) →
      '\x7b' ∈ stripMatches (tokenize input) →
      SinkStmtTemplate.parse input = .error .UnclosedPlaceholder) ∧
    ((∀ r ∈ holesOf (tokenize input), (SinkPlaceholder.parse (trimChars r)).isSome) →
      ¬ '\x7d' ∈ stripMatches (tokenize input) →
      ¬ '\x7b' ∈ stripMatches (tokenize input) →
      holesOf (tokenize input) = [] →
      SinkStmtTemplate.parse input = .error .NoPlaceholders) ∧
    (∀ input' : List Char,
      List.Forall₂ tokSim (tokenize input) (tokenize input') →
      SinkStmtTemplate.parse input = SinkStmtTemplate.parse input') := by
  have hok : ∀ (hval : ∀ r ∈ holesOf (tokenize input),
      (SinkPlaceholder.parse (trimChars r)).isSome),
      parseLoop (tokenize input) [] [] =
        .ok (numberHoles 1 (tokenize input),
          (holesOf (tokenize input)).filterMap
            (fun r => SinkPlaceholder.parse (trimChars r))) := by
    intro hval
    rw [parseLoop_ok (tokenize input) [] [] hval]
    rw [holes_filterMap]
    simp
  refine ⟨?_, ?_, ?_, ?_, ?_, ?_, ?_⟩
  · intro hval h2 h3 hne
    have hph : ((holesOf (tokenize input)).filterMap
        (fun r => SinkPlaceholder.parse (trimChars r))).isEmpty = false := by
      cases hh : holesOf (tokenize input) with
      | nil => exact absurd hh hne
      | cons r hs =>
        obtain ⟨pl, hpl⟩ := Option.isSome_iff_exists.mp
          (hval r (hh ▸ List.mem_cons_self r hs))
        simp [List.filterMap_cons, hpl]
    rw [sinkParse_eq, hok hval]
    simp only []
    rw [if_neg h2, if_neg h3,
      if_neg (by rw [hph]; exact Bool.false_ne_true)]
  · intro pre r post hdec hpre htrim
    have hloop : parseLoop (tokenize input) [] [] = .error .EmptyPlaceholder := by
      have h := parseLoop_error_first (tokenize input) [] [] pre r post hdec hpre
        (by rw [htrim, sinkPlaceholder_parse_nil]; rfl)
      rw [h, htrim]
      rfl
    rw [sinkParse_eq, hloop]
  · intro pre r post hdec hpre htrim hnone
    have hloop : parseLoop (tokenize input) [] [] =
        .error (.UnknownPlaceholder (trimChars r)) := by
      have h := parseLoop_error_first (tokenize input) [] [] pre r post hdec hpre
        (by rw [hnone]; rfl)
      rw [h]
      cases htr : trimChars r with
      | nil => exact absurd htr htrim
      | cons c l => rfl
    rw [sinkParse_eq, hloop]
  · intro hval hmem
    rw [sinkParse_eq, hok hval]
    simp only []
    rw [if_pos hmem]
  · intro hval h2 hmem
    rw [sinkParse_eq, hok hval]
    simp only []
    rw [if_neg h2, if_pos hmem]
  · intro hval h2 h3 hnil
    rw [sinkParse_eq, hok hval]
    simp only []
    rw [if_neg h2, if_neg h3, if_pos (by rw [hnil]; rfl)]
  · intro input' hsim
    exact sinkParse_sim input input' hsim

/-- C9 witness: the template `VALUES (\x7bproduct_id\x7d, \x7b quantity \x7d)`
(with a spaced placeholder) satisfies the success hypotheses; its matches
rewrite to `VALUES ($1, $2)` and the parse succeeds with the placeholders
in match order. -/
theorem c9_sink_template_parse_witness :
    (∀ r ∈ holesOf (tokenize ("VALUES (\x7bproduct_id\x7d, \x7b quantity \x7d)").data),
      (SinkPlaceholder.parse (trimChars r)).isSome) ∧
    numberHoles 1 (tokenize ("VALUES (\x7bproduct_id\x7d, \x7b quantity \x7d)").data) =
      ("VALUES ($1, $2)").data ∧
    SinkStmtTemplate.parse ("VALUES (\x7bproduct_id\x7d, \x7b quantity \x7d)").data =
      .ok { sql := numberHoles 1
              (tokenize ("VALUES (\x7bproduct_id\x7d, \x7b quantity \x7d)").data)
            placeholders :=
              (holesOf (tokenize
                ("VALUES (\x7bproduct_id\x7d, \x7b quantity \x7d)").data)).filterMap
                (fun r => SinkPlaceholder.parse (trimChars r)) } := by
  have htok : tokenize ("VALUES (\x7bproduct_id\x7d, \x7b quantity \x7d)").data =
      [.lit 'V', .lit 'A', .lit 'L', .lit 'U', .lit 'E', .lit 'S', .lit ' ', .lit '(',
       .hole "product_id".data, .lit ',', .lit ' ',
       .hole " quantity ".data, .lit ')'] := by
    simp [tokenize]
  have hval : ∀ r ∈ holesOf
      (tokenize ("VALUES (\x7bproduct_id\x7d, \x7b quantity \x7d)").data),
      (SinkPlaceholder.parse (trimChars r)).isSome := by
    rw [htok]
    decide
  refine ⟨hval, ?_, ?_⟩
  · rw [htok]
    decide
  · exact (c9_sink_template_parse _).1 hval (by rw [htok]; decide) (by rw [htok]; decide)
      (by rw [htok]; decide)

/-- C10 witness: a Commingled node whose only dependency is absent from
the (empty) cache computes exactly what it would compute with its
in-edges removed. -/
theorem c10_missing_dependency_omitted_witness :
    ((Product.Commingled 2).is_simple = false) ∧
    nodeAvail ⟨[1, 2], [(1, 2, 1)]⟩ (fun _ => none) 0 [] 2 (.Commingled 2) =
      nodeAvail ⟨[1, 2], List.filter (fun e => decide (¬ e.2.1 = 2)) [(1, 2, 1)]⟩
        (fun _ => none) 0 [] 2 (.Commingled 2) :=
  ⟨by decide,
    (c10_missing_dependency_omitted ⟨[1, 2], [(1, 2, 1)]⟩ (fun _ => none)
      (fun _ => none) 0 [] 2 (.Commingled 2) (by decide)).2.1
      (by intro cw hcw; rfl)⟩
